import Mathlib

/-!
Shallow embedding of the qubricks excerpt: the state-operator hierarchy from
wall/stateoperators.py and the adiabatic spectrum tracker energy_spectrum from
analysis/spectrum.py.

Complex machine numbers (numpy complex values) are modelled as pairs of scalars.
For the state-operator module the scalar is the exact rational field; for the
spectrum tracker the scalar is any linearly ordered commutative ring, so every
theorem below holds in particular for the real-number model of floats, while
concrete witnesses run over the integers.  Parameter names (Python strings) are
modelled by an abstract countable key type.  The external collaborators that the
spec declares out of scope (the Operator abstraction, the QuantumSystem handle,
the parameter range facility and the numpy eigensolvers) are consumed through
oracle function fields, exactly as the code consumes them through their
interfaces; the theorems are universally quantified over those oracles.
-/

/-- Parameter names (Python dictionary keys) as an abstract countable key type. -/
abbrev PKey := Nat

/-- A Python dict used as keyword-parameter context: association list over keys. -/
abbrev PD := List (PKey × ℚ)

/-- The reserved key modelling the Python keyword name t. -/
def tKey : PKey := 0

/-- Python dict item assignment d[k] = v: replace the binding in place if the key
is present, otherwise append it. -/
def listDictSet {β : Type} : List (PKey × β) → PKey → β → List (PKey × β)
  | [], k, v => [(k, v)]
  | (k', v') :: rest, k, v =>
    if k' = k then (k, v) :: rest else (k', v') :: listDictSet rest k v

/-- Python d.update(e): item assignment for every binding of e, in order. -/
def listDictUpdate {β : Type} (d e : List (PKey × β)) : List (PKey × β) :=
  e.foldl (fun acc kv => listDictSet acc kv.1 kv.2) d

/-- Keyword-argument merge f(t=t, **params) handed to an operator evaluation. -/
def withT (t : ℚ) (params : PD) : PD := (tKey, t) :: params

/-- Complex numbers with rational components (numpy complex scalars in the
state-operator module). -/
@[ext] structure QC where
  re : ℚ
  im : ℚ
deriving DecidableEq

instance : Zero QC := ⟨⟨0, 0⟩⟩

instance : One QC := ⟨⟨1, 0⟩⟩

instance : Add QC := ⟨fun a b => ⟨a.re + b.re, a.im + b.im⟩⟩

instance : Neg QC := ⟨fun a => ⟨-a.re, -a.im⟩⟩

instance : Mul QC := ⟨fun a b => ⟨a.re * b.re - a.im * b.im, a.re * b.im + a.im * b.re⟩⟩

@[simp] theorem QC.zero_re : (0 : QC).re = 0 := rfl

@[simp] theorem QC.zero_im : (0 : QC).im = 0 := rfl

@[simp] theorem QC.one_re : (1 : QC).re = 1 := rfl

@[simp] theorem QC.one_im : (1 : QC).im = 0 := rfl

@[simp] theorem QC.add_re (a b : QC) : (a + b).re = a.re + b.re := rfl

@[simp] theorem QC.add_im (a b : QC) : (a + b).im = a.im + b.im := rfl

@[simp] theorem QC.neg_re (a : QC) : (-a).re = -a.re := rfl

@[simp] theorem QC.neg_im (a : QC) : (-a).im = -a.im := rfl

@[simp] theorem QC.mul_re (a b : QC) : (a * b).re = a.re * b.re - a.im * b.im := rfl

@[simp] theorem QC.mul_im (a b : QC) : (a * b).im = a.re * b.im + a.im * b.re := rfl

instance : CommRing QC where
  add_assoc a b c := by ext <;> simp <;> ring
  zero_add a := by ext <;> simp
  add_zero a := by ext <;> simp
  add_comm a b := by ext <;> simp <;> ring
  mul_assoc a b c := by ext <;> simp <;> ring
  one_mul a := by ext <;> simp
  mul_one a := by ext <;> simp
  left_distrib a b c := by ext <;> simp <;> ring
  right_distrib a b c := by ext <;> simp <;> ring
  mul_comm a b := by ext <;> simp <;> ring
  zero_mul a := by ext <;> simp
  mul_zero a := by ext <;> simp
  neg_add_cancel a := by ext <;> simp
  nsmul := nsmulRec
  zsmul := zsmulRec

/-- Complex conjugation of a scalar (numpy conjugate). -/
instance : Star QC := ⟨fun z => ⟨z.re, -z.im⟩⟩

/-- The imaginary unit, the Python literal 1j. -/
def QC.I : QC := ⟨0, 1⟩

/-- Division of a complex scalar by a real scalar (numpy complex / float). -/
def QC.divQ (z : QC) (q : ℚ) : QC := ⟨z.re / q, z.im / q⟩

/-- Complex scalar times complex matrix, elementwise (numpy scalar * array). -/
def cSMul {n : Nat} (c : QC) (M : Matrix (Fin n) (Fin n) QC) : Matrix (Fin n) (Fin n) QC :=
  Matrix.of fun i j => c * M i j

/-- Real scalar times complex matrix, elementwise (numpy float * array). -/
def qSMul {n : Nat} (q : ℚ) (M : Matrix (Fin n) (Fin n) QC) : Matrix (Fin n) (Fin n) QC :=
  Matrix.of fun i j => ⟨q * (M i j).re, q * (M i j).im⟩

/-- Complex scalar times complex vector, elementwise. -/
def vSMul {n : Nat} (c : QC) (v : Fin n → QC) : Fin n → QC := fun i => c * v i

/-- Elementwise conjugation of a matrix (the numpy conjugate() method). -/
def mconj {n : Nat} (M : Matrix (Fin n) (Fin n) QC) : Matrix (Fin n) (Fin n) QC :=
  Matrix.of fun i j => star (M i j)

/-- Modelled from the spec: the dot helper from qubricks.utility (its source is
not part of the excerpt), which chains numpy matrix products left to right, so
that dot(A, B, C) is (A.B).C. -/
def dot3 {n : Nat} (A B C : Matrix (Fin n) (Fin n) QC) : Matrix (Fin n) (Fin n) QC :=
  A * B * C

/-- Modelled from the spec: Operator.apply(state, params=pams, left=True,
symbolic=False) from the external Operator abstraction (its source is not part
of the excerpt) evaluates the operator at the given parameters and multiplies
the resulting matrix into the state vector from the left. -/
def applyLeft {n : Nat} (H : PD → Matrix (Fin n) (Fin n) QC) (v : Fin n → QC) (pams : PD) :
    Fin n → QC :=
  (H pams).mulVec v

/-- A quantum state as the integrator hands it to a StateOperator: a 1-D vector
(pure state) or a 2-D array (ensemble / density matrix). -/
inductive NState (n : Nat) where
  | vec (v : Fin n → QC)
  | mat (m : Matrix (Fin n) (Fin n) QC)

/-- Result of a Python structural method: either the receiver object itself
(the statement return self) or a freshly constructed instance. -/
inductive ReturnAlloc (α : Type) where
  | self : ReturnAlloc α
  | new : α → ReturnAlloc α
deriving DecidableEq

/-- Whether a structural method produced a fresh instance distinct from the
receiver rather than returning the receiver itself. -/
def ReturnAlloc.isNew {α : Type} : ReturnAlloc α → Prop
  | ReturnAlloc.self => False
  | ReturnAlloc.new _ => True

/-- DummyStateOperator: owns no Operators.  The p handle and basis record the
state installed by the external base-class constructor. -/
structure DummyStateOperator where
  p_handle : Nat
  basis : Option PKey
deriving DecidableEq

/-- DummyStateOperator.__call__ returns the state unchanged. -/
def DummyStateOperator.call {σ : Type} (_d : DummyStateOperator) (state : σ) (_t : ℚ)
    (_params : PD) : σ :=
  state

/-- DummyStateOperator.transform: return self.  The first component is the
receiver's state after the call (no field of self is assigned). -/
def DummyStateOperator.transform {α : Type} (d : DummyStateOperator) (_transform_op : α) :
    DummyStateOperator × ReturnAlloc DummyStateOperator :=
  (d, ReturnAlloc.self)

/-- DummyStateOperator.restrict: return self. -/
def DummyStateOperator.restrict (d : DummyStateOperator) (_indicies : List Nat) :
    DummyStateOperator × ReturnAlloc DummyStateOperator :=
  (d, ReturnAlloc.self)

/-- DummyStateOperator.collapse: return self. -/
def DummyStateOperator.collapse (d : DummyStateOperator) (_wrt : List PKey) (_params : PD) :
    DummyStateOperator × ReturnAlloc DummyStateOperator :=
  (d, ReturnAlloc.self)

/-- SchrodingerStateOperator: owns the Hamiltonian Operator H, modelled by its
evaluation map from a keyword-parameter context to a complex matrix, together
with the externally installed parameter context (p.c_hbar) and basis. -/
structure SchrodingerStateOperator (n : Nat) where
  p_c_hbar : ℚ
  H : PD → Matrix (Fin n) (Fin n) QC
  basis : Option PKey

/-- SchrodingerStateOperator.__call__: on a 2-D state returns
1j / hbar * (state.H - H.state) with H = self.H(t=t, **params); on a 1-D state
returns -1j / hbar * self.H.apply(state, params=pams, left=True) where pams is
the dict with key t mapped to t and then updated with params. -/
def SchrodingerStateOperator.call {n : Nat} (s : SchrodingerStateOperator n) (state : NState n)
    (t : ℚ) (params : PD) : NState n :=
  let pams := listDictUpdate [(tKey, t)] params
  match state with
  | NState.mat m =>
    let Hm := s.H (withT t params)
    NState.mat (cSMul (QC.divQ QC.I s.p_c_hbar) (m * Hm - Hm * m))
  | NState.vec v =>
    NState.vec (vSMul (QC.divQ (-QC.I) s.p_c_hbar) (applyLeft s.H v pams))

/-- SchrodingerStateOperator.transform: a new instance wrapping transform_op
applied to the owned Hamiltonian; no basis keyword is passed. -/
def SchrodingerStateOperator.transform {n : Nat} (s : SchrodingerStateOperator n)
    (transform_op : (PD → Matrix (Fin n) (Fin n) QC) → PD → Matrix (Fin n) (Fin n) QC) :
    SchrodingerStateOperator n × ReturnAlloc (SchrodingerStateOperator n) :=
  (s, ReturnAlloc.new { p_c_hbar := s.p_c_hbar, H := transform_op s.H, basis := none })

/-- SchrodingerStateOperator.restrict: a new instance wrapping the external
Operator.restrict method (consumed as an oracle) applied to the owned H. -/
def SchrodingerStateOperator.restrict {n : Nat} (s : SchrodingerStateOperator n)
    (restrictFn : (PD → Matrix (Fin n) (Fin n) QC) → List Nat → PD → Matrix (Fin n) (Fin n) QC)
    (indicies : List Nat) :
    SchrodingerStateOperator n × ReturnAlloc (SchrodingerStateOperator n) :=
  (s, ReturnAlloc.new { p_c_hbar := s.p_c_hbar, H := restrictFn s.H indicies, basis := none })

/-- SchrodingerStateOperator.collapse: a new instance wrapping the external
Operator.collapse method applied to the owned H, keeping the receiver's basis. -/
def SchrodingerStateOperator.collapse {n : Nat} (s : SchrodingerStateOperator n)
    (collapseFn : (PD → Matrix (Fin n) (Fin n) QC) → List PKey → PD → PD →
      Matrix (Fin n) (Fin n) QC)
    (wrt : List PKey) (params : PD) :
    SchrodingerStateOperator n × ReturnAlloc (SchrodingerStateOperator n) :=
  (s, ReturnAlloc.new
    { p_c_hbar := s.p_c_hbar, H := collapseFn s.H wrt params, basis := s.basis })

/-- LindbladStateOperator: owns a scalar coefficient handle together with its
parameter-context resolver p(value, **ctx), and the jump Operator. -/
structure LindbladStateOperator (n : Nat) where
  p_c_hbar : ℚ
  p_resolve : ℚ → PD → ℚ
  coefficient : ℚ
  operator : PD → Matrix (Fin n) (Fin n) QC

/-- LindbladStateOperator.__call__: with O = self.operator(t=t, **params) and
Od = O.transpose().conjugate(), returns
p(coefficient, t=t, **params) / hbar ** 2 *
(dot(O, state, Od) - 0.5 * (dot(Od, O, state) + dot(state, Od, O))). -/
def LindbladStateOperator.call {n : Nat} (s : LindbladStateOperator n)
    (state : Matrix (Fin n) (Fin n) QC) (t : ℚ) (params : PD) : Matrix (Fin n) (Fin n) QC :=
  let O := s.operator (withT t params)
  let Od := mconj O.transpose
  qSMul (s.p_resolve s.coefficient (withT t params) / s.p_c_hbar ^ 2)
    (dot3 O state Od - qSMul (1 / 2 : ℚ) (dot3 Od O state + dot3 state Od O))

/-- LindbladStateOperator.transform: a new instance with the same coefficient
and transform_op applied to the owned jump operator. -/
def LindbladStateOperator.transform {n : Nat} (s : LindbladStateOperator n)
    (transform_op : (PD → Matrix (Fin n) (Fin n) QC) → PD → Matrix (Fin n) (Fin n) QC) :
    LindbladStateOperator n × ReturnAlloc (LindbladStateOperator n) :=
  (s, ReturnAlloc.new
    { p_c_hbar := s.p_c_hbar
      p_resolve := s.p_resolve
      coefficient := s.coefficient
      operator := transform_op s.operator })

/-- LindbladStateOperator.restrict: a new instance with the same coefficient and
the external Operator.restrict applied to the owned jump operator. -/
def LindbladStateOperator.restrict {n : Nat} (s : LindbladStateOperator n)
    (restrictFn : (PD → Matrix (Fin n) (Fin n) QC) → List Nat → PD → Matrix (Fin n) (Fin n) QC)
    (indicies : List Nat) :
    LindbladStateOperator n × ReturnAlloc (LindbladStateOperator n) :=
  (s, ReturnAlloc.new
    { p_c_hbar := s.p_c_hbar
      p_resolve := s.p_resolve
      coefficient := s.coefficient
      operator := restrictFn s.operator indicies })

/-- LindbladStateOperator.collapse: a new instance with the same coefficient and
the external Operator.collapse applied to the owned jump operator. -/
def LindbladStateOperator.collapse {n : Nat} (s : LindbladStateOperator n)
    (collapseFn : (PD → Matrix (Fin n) (Fin n) QC) → List PKey → PD → PD →
      Matrix (Fin n) (Fin n) QC)
    (wrt : List PKey) (params : PD) :
    LindbladStateOperator n × ReturnAlloc (LindbladStateOperator n) :=
  (s, ReturnAlloc.new
    { p_c_hbar := s.p_c_hbar
      p_resolve := s.p_resolve
      coefficient := s.coefficient
      operator := collapseFn s.operator wrt params })

/-- C2: SchrodingerStateOperator.__call__ on a 2-D (ensemble) state returns
i/hbar * (state.H - H.state) with H the owned Hamiltonian evaluated at
(t, params) and hbar read from the parameter context c_hbar, a quantity equal
to -i/hbar * (H.state - state.H); on a 1-D (pure-state) state it returns
-i/hbar * H(t).state, where H is evaluated on the dict holding t updated with
params and applied to the state from the left. -/
theorem claim_C2_schrodinger_call {n : Nat} (s : SchrodingerStateOperator n)
    (m : Matrix (Fin n) (Fin n) QC) (v : Fin n → QC) (t : ℚ) (params : PD) :
    s.call (NState.mat m) t params
        = NState.mat (cSMul (QC.divQ QC.I s.p_c_hbar)
            (m * s.H (withT t params) - s.H (withT t params) * m))
      ∧ s.call (NState.mat m) t params
        = NState.mat (cSMul (-(QC.divQ QC.I s.p_c_hbar))
            (s.H (withT t params) * m - m * s.H (withT t params)))
      ∧ s.call (NState.vec v) t params
        = NState.vec (vSMul (QC.divQ (-QC.I) s.p_c_hbar)
            ((s.H (listDictUpdate [(tKey, t)] params)).mulVec v)) := by
  refine ⟨rfl, ?_, rfl⟩
  have h : cSMul (QC.divQ QC.I s.p_c_hbar)
        (m * s.H (withT t params) - s.H (withT t params) * m)
      = cSMul (-(QC.divQ QC.I s.p_c_hbar))
        (s.H (withT t params) * m - m * s.H (withT t params)) := by
    funext i j
    simp [cSMul]
    ring
  calc s.call (NState.mat m) t params
      = NState.mat (cSMul (QC.divQ QC.I s.p_c_hbar)
          (m * s.H (withT t params) - s.H (withT t params) * m)) := rfl
    _ = NState.mat (cSMul (-(QC.divQ QC.I s.p_c_hbar))
          (s.H (withT t params) * m - m * s.H (withT t params))) := by rw [h]

/-- C3: LindbladStateOperator.__call__ on a density-matrix-shaped state returns
rate(t, params) / hbar^2 * (O.state.Od - 0.5 * (Od.O.state + state.Od.O)), with
O the owned jump operator evaluated at (t, params), Od its conjugate transpose,
and rate the parameter-resolved coefficient. -/
theorem claim_C3_lindblad_call {n : Nat} (s : LindbladStateOperator n)
    (state : Matrix (Fin n) (Fin n) QC) (t : ℚ) (params : PD) :
    s.call state t params
      = qSMul (s.p_resolve s.coefficient (withT t params) / s.p_c_hbar ^ 2)
          (s.operator (withT t params) * state
              * Matrix.conjTranspose (s.operator (withT t params))
            - qSMul (1 / 2 : ℚ)
              (Matrix.conjTranspose (s.operator (withT t params))
                  * s.operator (withT t params) * state
                + state * Matrix.conjTranspose (s.operator (withT t params))
                  * s.operator (withT t params))) := by
  have hconj : mconj (Matrix.transpose (s.operator (withT t params)))
      = Matrix.conjTranspose (s.operator (withT t params)) := rfl
  simp only [LindbladStateOperator.call, dot3, hconj]

/-- Concrete DummyStateOperator receiver used in the C8 counterexample. -/
def dummyReceiver : DummyStateOperator := { p_handle := 37, basis := none }

/-- C8 counterexample: DummyStateOperator.transform, .restrict and .collapse
all execute return self, handing back the receiver object itself rather than a
new instance distinct from it, so the claim fails on DummyStateOperator. -/
theorem claim_C8_counterexample :
    (dummyReceiver.transform (0 : Nat)).2 = ReturnAlloc.self
      ∧ (dummyReceiver.restrict []).2 = ReturnAlloc.self
      ∧ (dummyReceiver.collapse [] []).2 = ReturnAlloc.self
      ∧ ¬ (dummyReceiver.transform (0 : Nat)).2.isNew :=
  ⟨rfl, rfl, rfl, fun h => h⟩

/-- C8 amended: transform, restrict and collapse on SchrodingerStateOperator and
LindbladStateOperator construct and return a new instance, and the receiver is
left untouched (its state after the call is its state before, so evaluating its
owned Operators with the same parameters before and after the call gives the
same result); DummyStateOperator's transform, restrict and collapse instead
return the receiver object itself, also unmutated. -/
theorem claim_C8_amended {n : Nat} (s : SchrodingerStateOperator n)
    (l : LindbladStateOperator n) (d : DummyStateOperator)
    (transform_op : (PD → Matrix (Fin n) (Fin n) QC) → PD → Matrix (Fin n) (Fin n) QC)
    (restrictFn : (PD → Matrix (Fin n) (Fin n) QC) → List Nat → PD → Matrix (Fin n) (Fin n) QC)
    (collapseFn : (PD → Matrix (Fin n) (Fin n) QC) → List PKey → PD → PD →
      Matrix (Fin n) (Fin n) QC)
    (dummyArg : Nat) (indicies : List Nat) (wrt : List PKey) (params : PD) :
    ((s.transform transform_op).1 = s ∧ (s.transform transform_op).2.isNew)
      ∧ ((s.restrict restrictFn indicies).1 = s ∧ (s.restrict restrictFn indicies).2.isNew)
      ∧ ((s.collapse collapseFn wrt params).1 = s
        ∧ (s.collapse collapseFn wrt params).2.isNew)
      ∧ ((l.transform transform_op).1 = l ∧ (l.transform transform_op).2.isNew)
      ∧ ((l.restrict restrictFn indicies).1 = l ∧ (l.restrict restrictFn indicies).2.isNew)
      ∧ ((l.collapse collapseFn wrt params).1 = l
        ∧ (l.collapse collapseFn wrt params).2.isNew)
      ∧ ((d.transform dummyArg).1 = d ∧ (d.transform dummyArg).2 = ReturnAlloc.self)
      ∧ ((d.restrict indicies).1 = d ∧ (d.restrict indicies).2 = ReturnAlloc.self)
      ∧ ((d.collapse wrt params).1 = d ∧ (d.collapse wrt params).2 = ReturnAlloc.self) :=
  ⟨⟨rfl, trivial⟩, ⟨rfl, trivial⟩, ⟨rfl, trivial⟩, ⟨rfl, trivial⟩, ⟨rfl, trivial⟩,
    ⟨rfl, trivial⟩, ⟨rfl, rfl⟩, ⟨rfl, rfl⟩, ⟨rfl, rfl⟩⟩

/-!
The spectrum tracker analysis/spectrum.py, generic over the scalar type.  R is
any linearly ordered commutative ring, standing for the machine reals; the
concrete witnesses below instantiate R with the integers.
-/

/-- Complex numbers over the scalar ring R (numpy complex values in the
spectrum module). -/
@[ext] structure Cx (R : Type) where
  re : R
  im : R
deriving DecidableEq

/-- The complex zero over R. -/
def cxZero {R : Type} [CommRing R] : Cx R := ⟨0, 0⟩

/-- Complex addition over R. -/
def cxAdd {R : Type} [CommRing R] (a b : Cx R) : Cx R := ⟨a.re + b.re, a.im + b.im⟩

/-- Complex multiplication over R. -/
def cxMul {R : Type} [CommRing R] (a b : Cx R) : Cx R :=
  ⟨a.re * b.re - a.im * b.im, a.re * b.im + a.im * b.re⟩

/-- A numpy 2-D complex array, row major. -/
abbrev Mat (R : Type) := List (List (Cx R))

/-- Number of columns of a row-major array. -/
def nCols {R : Type} (m : Mat R) : Nat := (m.headD []).length

/-- Column j of a row-major array. -/
def matCol {R : Type} [CommRing R] (m : Mat R) (j : Nat) : List (Cx R) :=
  m.map (fun row => row.getD j cxZero)

/-- numpy dot product of two 1-D complex arrays (plain products, no
conjugation). -/
def dotVV {R : Type} [CommRing R] (u v : List (Cx R)) : Cx R :=
  (List.zipWith cxMul u v).foldr cxAdd cxZero

/-- One row of the product row.m: the overlaps of one state with every column
of m. -/
def rowDotMat {R : Type} [CommRing R] (row : List (Cx R)) (m : Mat R) : List (Cx R) :=
  (List.range (nCols m)).map (fun j => dotVV row (matCol m j))

/-- The numpy ordering of complex scalars: lexicographic on the real part, then
the imaginary part.  This is the comparison np.argmax uses on a complex array. -/
def cxGt {R : Type} [LinearOrder R] (a b : Cx R) : Bool :=
  decide (b.re < a.re) || (decide (b.re = a.re) && decide (b.im < a.im))

/-- Scan keeping the first occurrence of the running maximum. -/
def argmaxAux {R : Type} [LinearOrder R] : List (Cx R) → Cx R → Nat → Nat → Nat
  | [], _, bi, _ => bi
  | v :: rest, bv, bi, cur =>
    if cxGt v bv then argmaxAux rest v cur (cur + 1) else argmaxAux rest bv bi (cur + 1)

/-- np.argmax on a 1-D complex array: index of the first occurrence of the
maximum under the numpy complex ordering. -/
def npArgmax {R : Type} [LinearOrder R] : List (Cx R) → Nat
  | [] => 0
  | x :: xs => argmaxAux xs x 0 1

/-- Line 69 of spectrum.py: np.argmax(np.array(states).dot(evecs), axis=1),
the assigned eigenvalue slot of each supplied state. -/
def assignIndices {R : Type} [CommRing R] [LinearOrder R] (states : List (List (Cx R)))
    (evecs : Mat R) : List Nat :=
  states.map (fun s => npArgmax (rowDotMat s evecs))

/-- Insertion into an ascending list. -/
def insertAsc {R : Type} [LinearOrder R] (x : R) : List R → List R
  | [] => [x]
  | y :: ys => if x ≤ y then x :: y :: ys else y :: insertAsc x ys

/-- Ascending sort, modelling np.sort and the Python builtin sorted. -/
def sortR {R : Type} [LinearOrder R] : List R → List R
  | [] => []
  | x :: xs => insertAsc x (sortR xs)

/-- Insertion of an index into a list of indices kept ascending by key. -/
def insertIdx {R : Type} [CommRing R] [LinearOrder R] (l : List R) (i : Nat) :
    List Nat → List Nat
  | [] => [i]
  | j :: js => if l.getD i 0 < l.getD j 0 then i :: j :: js else j :: insertIdx l i js

/-- np.argsort: a permutation of the index range putting the keys ascending. -/
def argsortR {R : Type} [CommRing R] [LinearOrder R] (l : List R) : List Nat :=
  (List.range l.length).foldr (insertIdx l) []

/-- Column permutation m[:, perm] of a row-major array. -/
def colPermute {R : Type} [CommRing R] (m : Mat R) (perm : List Nat) : Mat R :=
  m.map (fun row => perm.map (fun j => row.getD j cxZero))

/-- A Python dict value in the spectrum module: a plain numeric parameter value
or an opaque range specification. -/
inductive PVal (R : Type) where
  | num (x : R)
  | rspec (s : List R)
deriving DecidableEq

/-- A Python parameter dict in the spectrum module. -/
abbrev PDict (R : Type) := List (PKey × PVal R)

/-- The heap of live Python dict objects; a dict variable is an index into it.
Reference 0 is the caller's params object. -/
abbrev Store (R : Type) := List (PDict R)

/-- Dereference a dict variable. -/
def getRef {R : Type} (st : Store R) (r : Nat) : PDict R := st.getD r []

/-- Overwrite the dict object a variable points to (an in-place mutation). -/
def setRef {R : Type} (st : Store R) (r : Nat) (d : PDict R) : Store R := st.set r d

/-- Allocate a fresh dict object (params.copy() allocates), returning its
reference. -/
def alloc {R : Type} (st : Store R) (d : PDict R) : Store R × Nat := (st ++ [d], st.length)

/-- The external Operator abstraction, consumed through its evaluation map from
a parameter dict to a complex matrix. -/
structure Operator (R : Type) where
  eval : PDict R → Mat R

/-- Result of the external range-expansion facility system.p.range: a dict of
equal-length value sequences, or (for a single name) a bare array that line 85
wraps back into a dict. -/
inductive RangeResult (R : Type) where
  | dict (d : List (PKey × List R))
  | arr (a : List R)

/-- The external QuantumSystem collaborator, consumed through the interface
spectrum.py uses: H, basis, subspace, dim and p.range. -/
structure QSystem (R : Type) where
  dim : Nat
  Hof : List PKey → Operator R
  basisOf : Option PKey → Option PKey
  subspace : List (List (Cx R)) → Option PKey → Option PKey → PDict R → List (List (Cx R))
  prange : List PKey → PDict R → RangeResult R

/-- The external numerics: basis change of an Operator, and the numpy
eigensolvers (np.linalg.eig returning eigenvalues with the eigenvector matrix
whose columns are the eigenvectors, and np.linalg.eigvals). -/
structure NumEnv (R : Type) where
  changeBasis : Operator R → Option PKey → PDict R → Operator R
  eig : Mat R → List R × Mat R
  eigvals : Mat R → List R

/-- The ranges argument as energy_spectrum receives it: a mapping, or any
non-dict Python value (line 59 tests type(ranges) is not dict). -/
inductive RangesArg (R : Type) where
  | dict (d : PDict R)
  | nondict (tag : Nat)

/-- Trace events of one energy_spectrum run, in program order: the initial
eigendecomposition (with the dict it was evaluated under and the matrix
diagonalized), the slot-assignment step of line 69, the non-bijective-labelling
warning of line 71, and each sweep-point eigvals call (with its dict and
matrix). -/
inductive Ev (R : Type) where
  | eigInit (d : PDict R) (m : Mat R)
  | assign
  | warn
  | eigSweep (i : Nat) (d : PDict R) (m : Mat R)
deriving DecidableEq

/-- The fatal errors of a run: the ValueError of line 60 for a non-dict ranges
argument, the broadcast ValueError numpy raises for the slice assignment of
line 98 when the tracked row list is longer than the column, and the IndexError
numpy raises at line 103 when the complete-mode fill position
len(indices)+count reaches the row count of the results array. -/
inductive ESErr where
  | invalidRangeSpec
  | broadcastMismatch
  | indexOutOfRange
deriving DecidableEq

/-- Outcome of a run: the raised error, or the result array as the list of its
per-sweep-point columns. -/
inductive ESOut (R : Type) where
  | err (e : ESErr)
  | ok (columns : List (List R))
deriving DecidableEq

/-- A completed energy_spectrum run: its event trace, its outcome and the final
dict store. -/
structure ESRun (R : Type) where
  trace : List (Ev R)
  result : ESOut R
  store : Store R

/-- Slice assignment results[:len(xs), i] = xs on one column. -/
def writeSlice {R : Type} (col : List R) (xs : List R) : List R := xs ++ col.drop xs.length

/-- Lines 100-104: walk the slots 0..dim-1 and write the eigenvalue of every
untracked slot into the next free row, counting up from pos. -/
def completeFillAux {R : Type} [CommRing R] (evals : List R) (indices : List Nat) :
    List R → Nat → List Nat → List R
  | col, _, [] => col
  | col, pos, k :: ks =>
    if k ∈ indices then completeFillAux evals indices col pos ks
    else completeFillAux evals indices (col.set pos (evals.getD k 0)) (pos + 1) ks

/-- One column of the results array when no shape error is raised: zeros, then
the tracked rows evals[indices[j]] by slice assignment (line 98), then, when
complete, the untracked eigenvalues in increasing slot order (lines 99-104).
The shape errors numpy raises on these writes are modelled by rowWriteErr
below and threaded by buildColumnE. -/
def buildColumn {R : Type} [CommRing R] (evalsSorted : List R) (indices : List Nat)
    (complete : Bool) (dim rows : Nat) : List R :=
  let col0 := List.replicate rows (0 : R)
  let col1 := writeSlice col0 (indices.map (fun j => evalsSorted.getD j 0))
  if complete then completeFillAux evalsSorted indices col1 indices.length (List.range dim)
  else col1

/-- The untracked slots of lines 101-102: every slot below dim that got no
tracked state, in increasing slot order. -/
def untrackedSlots (dim : Nat) (indices : List Nat) : List Nat :=
  (List.range dim).filter (fun k => decide (k ∉ indices))

/-- The shape error one loop iteration raises, if any, in program order.
Line 98 raises a broadcast ValueError exactly when the assigned list of
len(indices) tracked values is longer than the rows-entry column slice (the
slice clips to rows entries, so a longer list cannot broadcast).  Otherwise,
in complete mode, lines 100-104 write the untracked eigenvalues at the
consecutive positions len(indices), len(indices)+1, ..., one per untracked
slot in increasing slot order, and numpy raises IndexError as soon as a write
position reaches rows, which happens exactly when len(indices) plus the number
of untracked slots exceeds rows.  Both conditions depend only on the
assignment and the array shape, not on the sweep point, so a run either raises
in its first iteration or never. -/
def rowWriteErr (indices : List Nat) (complete : Bool) (dim rows : Nat) : Option ESErr :=
  if rows < indices.length then some ESErr.broadcastMismatch
  else if complete then
    if rows < indices.length + (untrackedSlots dim indices).length then
      some ESErr.indexOutOfRange
    else none
  else none

/-- Lines 96-104 for one sweep point: either the shape error numpy raises for
the writes of lines 98-104, or the written column. -/
def buildColumnE {R : Type} [CommRing R] (evalsSorted : List R) (indices : List Nat)
    (complete : Bool) (dim rows : Nat) : Except ESErr (List R) :=
  match rowWriteErr indices complete dim rows with
  | some e => Except.error e
  | none => Except.ok (buildColumn evalsSorted indices complete dim rows)

/-- The final outcome of the dict branch: the columns when every iteration
completed, or the error the aborting iteration raised. -/
def toESOut {R : Type} (r : Except ESErr (List (List R))) : ESOut R :=
  match r with
  | Except.error e => ESOut.err e
  | Except.ok cols => ESOut.ok cols

/-- One dict assignment vals[val] = rvals[val][i] of line 95, as a value. -/
def dictWrite {R : Type} [CommRing R] (i : Nat) (d : PDict R) (kv : PKey × List R) : PDict R :=
  listDictSet d kv.1 (PVal.num (kv.2.getD i 0))

/-- One dict assignment vals[val] = rvals[val][i] of line 95, as the in-place
mutation of the dict object the variable vR points to. -/
def storeWrite {R : Type} [CommRing R] (vR i : Nat) (s : Store R) (kv : PKey × List R) :
    Store R :=
  setRef s vR (dictWrite i (getRef s vR) kv)

/-- Lines 93-95 as a dict value: vals = params.copy(), then
vals[val] = rvals[val][i] for every range key. -/
def esVals {R : Type} [CommRing R] (params : PDict R) (rvals : List (PKey × List R))
    (i : Nat) : PDict R :=
  rvals.foldl (dictWrite i) params

/-- One iteration of the sweep loop (lines 93-104): allocate the vals dict as a
copy of params, write the range values for sweep point i into it in place,
evaluate and diagonalize the evolution Hamiltonian, and attempt to write the
column (raising the shape errors of lines 98-104 where numpy would). -/
def sweepStep {R : Type} [CommRing R] [LinearOrder R] (env : NumEnv R) (ham : Operator R)
    (pR : Nat) (rvals : List (PKey × List R)) (indices : List Nat) (complete : Bool)
    (dim rows : Nat) (st : Store R) (i : Nat) : Store R × Ev R × Except ESErr (List R) :=
  let a := alloc st (getRef st pR)
  let st2 := rvals.foldl (storeWrite a.2 i) a.1
  let d := getRef st2 a.2
  let m := ham.eval d
  (st2, Ev.eigSweep i d m, buildColumnE (sortR (env.eigvals m)) indices complete dim rows)

/-- The sweep loop of line 92, iterating the step over the sweep indices while
threading the dict store, collecting the columns and the sweep trace; an
iteration that raises aborts the loop, keeping the events emitted so far. -/
def sweepLoop {R : Type} [CommRing R] [LinearOrder R] (env : NumEnv R) (ham : Operator R)
    (pR : Nat) (rvals : List (PKey × List R)) (indices : List Nat) (complete : Bool)
    (dim rows : Nat) :
    Store R → List Nat → Store R × Except ESErr (List (List R)) × List (Ev R)
  | st, [] => (st, Except.ok [], [])
  | st, i :: is =>
    let r1 := sweepStep env ham pR rvals indices complete dim rows st i
    match r1.2.2 with
    | Except.error e => (r1.1, Except.error e, [r1.2.1])
    | Except.ok col =>
      let r2 := sweepLoop env ham pR rvals indices complete dim rows r1.1 is
      (r2.1,
        match r2.2.1 with
        | Except.error e => Except.error e
        | Except.ok cols => Except.ok (col :: cols),
        r1.2.1 :: r2.2.2)

/-- Lines 49-54: resolve the initial Hamiltonian (explicit hamiltonian_init,
else the supplied hamiltonian, else system.H of components_init falling back to
components) and change its basis to the output basis under params. -/
def esResolveInitH {R : Type} (env : NumEnv R) (sys : QSystem R)
    (hamiltonian_init hamiltonian : Option (Operator R))
    (components_init : Option (List PKey)) (components : List PKey)
    (params : PDict R) (output : Option PKey) : Operator R :=
  let h0 :=
    match hamiltonian_init with
    | some h => h
    | none =>
      match hamiltonian with
      | none => sys.Hof (components_init.getD components)
      | some h => h
  env.changeBasis h0 (sys.basisOf output) params

/-- Lines 76-78: resolve the evolution Hamiltonian and change its basis to the
output basis under params. -/
def esHam {R : Type} (env : NumEnv R) (sys : QSystem R) (hamiltonian : Option (Operator R))
    (components : List PKey) (params : PDict R) (output : Option PKey) : Operator R :=
  let h0 :=
    match hamiltonian with
    | none => sys.Hof components
    | some h => h
  env.changeBasis h0 (sys.basisOf output) params

/-- Lines 63-67: diagonalize the initial Hamiltonian under params_init
(defaulting to params) and permute the eigenvector columns by the ascending
argsort of the eigenvalues. -/
def esEvecs {R : Type} [CommRing R] [LinearOrder R] (env : NumEnv R) (sys : QSystem R)
    (hamiltonian_init hamiltonian : Option (Operator R))
    (components_init : Option (List PKey)) (components : List PKey)
    (params : PDict R) (params_init : Option (PDict R)) (output : Option PKey) : Mat R :=
  let pr := env.eig ((esResolveInitH env sys hamiltonian_init hamiltonian components_init
    components params output).eval (params_init.getD params))
  colPermute pr.2 (argsortR pr.1)

/-- The slot assignment of line 69, applied to the subspace-transformed states
of line 57. -/
def esIndices {R : Type} [CommRing R] [LinearOrder R] (env : NumEnv R) (sys : QSystem R)
    (states0 : List (List (Cx R))) (input output : Option PKey)
    (hamiltonian_init hamiltonian : Option (Operator R))
    (components_init : Option (List PKey)) (components : List PKey)
    (params : PDict R) (params_init : Option (PDict R)) : List Nat :=
  assignIndices (sys.subspace states0 input output params)
    (esEvecs env sys hamiltonian_init hamiltonian components_init components params
      params_init output)

/-- Lines 84-85: wrap a bare-array range result back into a dict under the
first range key. -/
def wrapRvals {R : Type} (rangesD : PDict R) (res : RangeResult R) :
    List (PKey × List R) :=
  match res with
  | RangeResult.dict d => d
  | RangeResult.arr a => [((rangesD.map Prod.fst).headD 0, a)]

/-- Lines 81-85 as a value: the expanded range dict, after merging ranges over
a copy of params and wrapping a bare-array result under the first range key. -/
def esRvals {R : Type} [CommRing R] (sys : QSystem R) (rangesD : PDict R)
    (params : PDict R) : List (PKey × List R) :=
  wrapRvals rangesD (sys.prange (rangesD.map Prod.fst) (listDictUpdate params rangesD))

/-- The sweep length N: the length of the first value sequence of rvals. -/
def esN {R : Type} [CommRing R] (sys : QSystem R) (rangesD : PDict R)
    (params : PDict R) : Nat :=
  ((esRvals sys rangesD params).headD (0, [])).2.length

/-- The row count of the results array (line 88 or line 90). -/
def esRows {R : Type} (sys : QSystem R) (states0 : List (List (Cx R)))
    (input output : Option PKey) (params : PDict R) (complete : Bool) : Nat :=
  if complete then sys.dim else (sys.subspace states0 input output params).length

/-- The column the loop body writes for sweep point i. -/
def esColumn {R : Type} [CommRing R] [LinearOrder R] (env : NumEnv R) (ham : Operator R)
    (params : PDict R) (rvals : List (PKey × List R)) (indices : List Nat)
    (complete : Bool) (dim rows : Nat) (i : Nat) : List R :=
  buildColumn (sortR (env.eigvals (ham.eval (esVals params rvals i)))) indices complete
    dim rows

/-- The full results array of a dict-ranges run, as its list of columns. -/
def esCols {R : Type} [CommRing R] [LinearOrder R] (env : NumEnv R) (sys : QSystem R)
    (states0 : List (List (Cx R))) (rangesD : PDict R) (input output : Option PKey)
    (hamiltonian : Option (Operator R)) (components : List PKey) (params : PDict R)
    (hamiltonian_init : Option (Operator R)) (components_init : Option (List PKey))
    (params_init : Option (PDict R)) (complete : Bool) : List (List R) :=
  (List.range (esN sys rangesD params)).map
    (esColumn env (esHam env sys hamiltonian components params output) params
      (esRvals sys rangesD params)
      (esIndices env sys states0 input output hamiltonian_init hamiltonian components_init
        components params params_init)
      complete sys.dim (esRows sys states0 input output params complete))

/-- energy_spectrum (analysis/spectrum.py lines 49-106).  The run record holds
the event trace in program order, the outcome (the error of line 60 or the
result array as its list of columns), and the final dict store; reference 0 of
the store is the caller's params object. -/
def energy_spectrum {R : Type} [CommRing R] [LinearOrder R] (env : NumEnv R)
    (sys : QSystem R) (states0 : List (List (Cx R))) (ranges : RangesArg R)
    (input output : Option PKey) (hamiltonian : Option (Operator R))
    (components : List PKey) (params : PDict R) (hamiltonian_init : Option (Operator R))
    (components_init : Option (List PKey)) (params_init : Option (PDict R))
    (complete : Bool) : ESRun R :=
  let hInit := esResolveInitH env sys hamiltonian_init hamiltonian components_init
    components params output
  let sts := sys.subspace states0 input output params
  match ranges with
  | RangesArg.nondict _ => ⟨[], ESOut.err ESErr.invalidRangeSpec, [params]⟩
  | RangesArg.dict rangesD =>
    let piD := params_init.getD params
    let mInit := hInit.eval piD
    let pr := env.eig mInit
    let evecs := colPermute pr.2 (argsortR pr.1)
    let _evalsInitSorted := sortR pr.1
    let indices := assignIndices sts evecs
    let warnE : List (Ev R) := if indices.Nodup then [] else [Ev.warn]
    let ham := esHam env sys hamiltonian components params output
    let st0 : Store R := [params]
    let a := alloc st0 (getRef st0 0)
    let st1 := setRef a.1 a.2 (listDictUpdate (getRef a.1 a.2) rangesD)
    let rvals := wrapRvals rangesD (sys.prange (rangesD.map Prod.fst) (getRef st1 a.2))
    let n := (rvals.headD (0, [])).2.length
    let rows := if complete then sys.dim else sts.length
    let lp := sweepLoop env ham 0 rvals indices complete sys.dim rows st1 (List.range n)
    ⟨[Ev.eigInit piD mInit, Ev.assign] ++ warnE ++ lp.2.2, toESOut lp.2.1, lp.1⟩

/-- Reading a list at an index other than the one just written is unchanged. -/
theorem listGetD_set_ne {α : Type} (l : List α) (n m : Nat) (a d : α) (h : m ≠ n) :
    (l.set n a).getD m d = l.getD m d := by
  simp [List.getD_eq_getElem?_getD, List.getElem?_set_ne (Ne.symm h)]

/-- Reading a list at the index just written yields the written value. -/
theorem listGetD_set_self {α : Type} (l : List α) (n : Nat) (a d : α) (h : n < l.length) :
    (l.set n a).getD n d = a := by
  simp [List.getD_eq_getElem?_getD, List.getElem?_set_eq_of_lt a h]

/-- Dereferencing after mutating a different dict object is unchanged. -/
theorem getRef_setRef_ne {R : Type} (st : Store R) (n m : Nat) (d : PDict R) (h : m ≠ n) :
    getRef (setRef st n d) m = getRef st m :=
  listGetD_set_ne st n m d [] h

/-- Dereferencing the dict object just mutated yields the new value. -/
theorem getRef_setRef_self {R : Type} (st : Store R) (n : Nat) (d : PDict R)
    (h : n < st.length) : getRef (setRef st n d) n = d :=
  listGetD_set_self st n d [] h

/-- Allocation does not move existing dict objects. -/
theorem getRef_append_lt {R : Type} (st ex : Store R) (r : Nat) (h : r < st.length) :
    getRef (st ++ ex) r = getRef st r := by
  simp [getRef, List.getD_eq_getElem?_getD, List.getElem?_append, h]

/-- Dereferencing a freshly allocated dict object yields its initial value. -/
theorem getRef_append_len {R : Type} (st : Store R) (d : PDict R) :
    getRef (st ++ [d]) st.length = d := by
  simp [getRef, List.getD_eq_getElem?_getD, List.getElem?_append]

/-- The in-place writes of lines 93-95 only touch the vals object: the store
keeps its size, the written object holds the dict value of the assignments, and
every other object is untouched. -/
theorem foldl_storeWrite_spec {R : Type} [CommRing R] (i : Nat)
    (rvals : List (PKey × List R)) :
    ∀ (st : Store R) (vR : Nat), vR < st.length →
      (rvals.foldl (storeWrite vR i) st).length = st.length
        ∧ getRef (rvals.foldl (storeWrite vR i) st) vR
          = rvals.foldl (dictWrite i) (getRef st vR)
        ∧ ∀ r, r ≠ vR → getRef (rvals.foldl (storeWrite vR i) st) r = getRef st r := by
  induction rvals with
  | nil => exact fun st vR _ => ⟨rfl, rfl, fun _ _ => rfl⟩
  | cons kv rest ih =>
    intro st vR h
    have hlen : (storeWrite vR i st kv).length = st.length := List.length_set st vR _
    obtain ⟨l1, l2, l3⟩ := ih (storeWrite vR i st kv) vR (by rwa [hlen])
    refine ⟨by simpa [hlen] using l1, ?_, ?_⟩
    · calc getRef ((kv :: rest).foldl (storeWrite vR i) st) vR
          = rest.foldl (dictWrite i) (getRef (storeWrite vR i st kv) vR) := l2
        _ = rest.foldl (dictWrite i) (dictWrite i (getRef st vR) kv) := by
            rw [storeWrite, getRef_setRef_self st vR _ h]
        _ = (kv :: rest).foldl (dictWrite i) (getRef st vR) := rfl
    · intro r hr
      calc getRef ((kv :: rest).foldl (storeWrite vR i) st) r
          = getRef (storeWrite vR i st kv) r := l3 r hr
        _ = getRef st r := getRef_setRef_ne st vR r _ hr

/-- One sweep iteration: the emitted event and the column are the ones computed
from the per-point dict built over params, the caller's params object is
untouched, and the store stays nonempty. -/
theorem sweepStep_spec {R : Type} [CommRing R] [LinearOrder R] (env : NumEnv R)
    (ham : Operator R) (rvals : List (PKey × List R)) (indices : List Nat)
    (complete : Bool) (dim rows : Nat) (params : PDict R) (st : Store R) (i : Nat)
    (h0 : getRef st 0 = params) (hl : 0 < st.length) :
    (sweepStep env ham 0 rvals indices complete dim rows st i).2.1
        = Ev.eigSweep i (esVals params rvals i) (ham.eval (esVals params rvals i))
      ∧ (sweepStep env ham 0 rvals indices complete dim rows st i).2.2
        = buildColumnE (sortR (env.eigvals (ham.eval (esVals params rvals i)))) indices
            complete dim rows
      ∧ getRef (sweepStep env ham 0 rvals indices complete dim rows st i).1 0 = params
      ∧ 0 < (sweepStep env ham 0 rvals indices complete dim rows st i).1.length := by
  obtain ⟨f1, f2, f3⟩ := foldl_storeWrite_spec i rvals (st ++ [getRef st 0]) st.length
    (by simp)
  have hvals : getRef (rvals.foldl (storeWrite st.length i) (st ++ [getRef st 0]))
      st.length = esVals params rvals i := by
    rw [f2, getRef_append_len st (getRef st 0), h0, esVals]
  have hp : getRef (rvals.foldl (storeWrite st.length i) (st ++ [getRef st 0])) 0
      = params := by
    rw [f3 0 (Nat.ne_of_lt hl), getRef_append_lt st _ 0 hl, h0]
  refine ⟨?_, ?_, ?_, ?_⟩
  · show Ev.eigSweep i (getRef (rvals.foldl (storeWrite st.length i) (st ++ [getRef st 0]))
        st.length) (ham.eval (getRef (rvals.foldl (storeWrite st.length i)
          (st ++ [getRef st 0])) st.length))
      = Ev.eigSweep i (esVals params rvals i) (ham.eval (esVals params rvals i))
    rw [hvals]
  · show buildColumnE (sortR (env.eigvals (ham.eval (getRef (rvals.foldl
        (storeWrite st.length i) (st ++ [getRef st 0])) st.length)))) indices complete
        dim rows
      = buildColumnE (sortR (env.eigvals (ham.eval (esVals params rvals i)))) indices
          complete dim rows
    rw [hvals]
  · exact hp
  · show 0 < (rvals.foldl (storeWrite st.length i) (st ++ [getRef st 0])).length
    rw [f1]
    simp

/-- The sweep loop of line 92 when no iteration raises a shape error: the
columns and the sweep events are those of the per-point computation over the
untouched params, and the caller's params object survives the loop unchanged. -/
theorem sweepLoop_spec {R : Type} [CommRing R] [LinearOrder R] (env : NumEnv R)
    (ham : Operator R) (rvals : List (PKey × List R)) (indices : List Nat)
    (complete : Bool) (dim rows : Nat) (params : PDict R)
    (herr : rowWriteErr indices complete dim rows = none) :
    ∀ (is : List Nat) (st : Store R), getRef st 0 = params → 0 < st.length →
      (sweepLoop env ham 0 rvals indices complete dim rows st is).2.1
          = Except.ok (is.map (esColumn env ham params rvals indices complete dim rows))
        ∧ (sweepLoop env ham 0 rvals indices complete dim rows st is).2.2
          = is.map (fun i => Ev.eigSweep i (esVals params rvals i)
              (ham.eval (esVals params rvals i)))
        ∧ getRef (sweepLoop env ham 0 rvals indices complete dim rows st is).1 0 = params
        ∧ 0 < (sweepLoop env ham 0 rvals indices complete dim rows st is).1.length := by
  intro is
  induction is with
  | nil => exact fun st h0 hl => ⟨rfl, rfl, h0, hl⟩
  | cons i rest ih =>
    intro st h0 hl
    obtain ⟨s1, s2, s3, s4⟩ := sweepStep_spec env ham rvals indices complete dim rows
      params st i h0 hl
    have s2' : (sweepStep env ham 0 rvals indices complete dim rows st i).2.2
        = Except.ok (esColumn env ham params rvals indices complete dim rows i) := by
      rw [s2]
      unfold buildColumnE
      rw [herr]
      rfl
    obtain ⟨r1, r2, r3, r4⟩ := ih (sweepStep env ham 0 rvals indices complete dim rows
      st i).1 s3 s4
    refine ⟨?_, ?_, ?_, ?_⟩
    · simp only [sweepLoop]
      rw [s2']
      simp [r1]
    · simp only [sweepLoop]
      rw [s2']
      simp [r2, s1]
    · simp only [sweepLoop]
      rw [s2']
      simpa using r3
    · simp only [sweepLoop]
      rw [s2']
      simpa using r4

/-- A sweep loop whose (iteration-independent) shape check fails aborts in its
first iteration: that iteration's eigvals event is emitted, the error is
raised, and the caller's params object is still untouched. -/
theorem sweepLoop_err_spec {R : Type} [CommRing R] [LinearOrder R] (env : NumEnv R)
    (ham : Operator R) (rvals : List (PKey × List R)) (indices : List Nat)
    (complete : Bool) (dim rows : Nat) (params : PDict R) (e : ESErr)
    (herr : rowWriteErr indices complete dim rows = some e)
    (i : Nat) (is : List Nat) (st : Store R)
    (h0 : getRef st 0 = params) (hl : 0 < st.length) :
    (sweepLoop env ham 0 rvals indices complete dim rows st (i :: is)).2.1
        = Except.error e
      ∧ (sweepLoop env ham 0 rvals indices complete dim rows st (i :: is)).2.2
        = [Ev.eigSweep i (esVals params rvals i) (ham.eval (esVals params rvals i))]
      ∧ getRef (sweepLoop env ham 0 rvals indices complete dim rows st (i :: is)).1 0
        = params := by
  obtain ⟨s1, s2, s3, _⟩ := sweepStep_spec env ham rvals indices complete dim rows
    params st i h0 hl
  have s2' : (sweepStep env ham 0 rvals indices complete dim rows st i).2.2
      = Except.error e := by
    rw [s2]
    unfold buildColumnE
    rw [herr]
  refine ⟨?_, ?_, ?_⟩
  · simp only [sweepLoop]
    rw [s2']
  · simp only [sweepLoop]
    rw [s2']
    simp [s1]
  · simp only [sweepLoop]
    rw [s2']
    simpa using s3

/-- Whether or not an iteration raises, the caller's params object survives the
sweep loop unchanged. -/
theorem sweepLoop_store_ref0 {R : Type} [CommRing R] [LinearOrder R] (env : NumEnv R)
    (ham : Operator R) (rvals : List (PKey × List R)) (indices : List Nat)
    (complete : Bool) (dim rows : Nat) (params : PDict R) :
    ∀ (is : List Nat) (st : Store R), getRef st 0 = params → 0 < st.length →
      getRef (sweepLoop env ham 0 rvals indices complete dim rows st is).1 0 = params := by
  intro is
  induction is with
  | nil => exact fun st h0 _ => h0
  | cons i rest ih =>
    intro st h0 hl
    obtain ⟨_, _, s3, s4⟩ := sweepStep_spec env ham rvals indices complete dim rows
      params st i h0 hl
    simp only [sweepLoop]
    cases hc : (sweepStep env ham 0 rvals indices complete dim rows st i).2.2 with
    | error e => simpa using s3
    | ok col =>
      simpa using ih (sweepStep env ham 0 rvals indices complete dim rows st i).1 s3 s4

/-- The sweep part of a trace never holds the warning event, aborted or not. -/
theorem sweepLoop_events_no_warn {R : Type} [CommRing R] [LinearOrder R] (env : NumEnv R)
    (ham : Operator R) (pR : Nat) (rvals : List (PKey × List R)) (indices : List Nat)
    (complete : Bool) (dim rows : Nat) :
    ∀ (is : List Nat) (st : Store R),
      Ev.warn ∉ (sweepLoop env ham pR rvals indices complete dim rows st is).2.2 := by
  intro is
  induction is with
  | nil => intro st; simp [sweepLoop]
  | cons i rest ih =>
    intro st
    simp only [sweepLoop]
    cases hc : (sweepStep env ham pR rvals indices complete dim rows st i).2.2 with
    | error e => simp [sweepStep]
    | ok col => simp [sweepStep, ih]

/-- A dict-ranges run of energy_spectrum whose (iteration-independent) shape
check passes: the trace is the one initial eigendecomposition evaluated under
params_init (defaulting to params), then the one slot-assignment step, then the
optional non-bijective warning, then exactly one eigvals event per sweep point;
the result is the list of per-point columns; and the caller's params object
(store reference 0) is returned unchanged. -/
theorem energy_spectrum_dict_run {R : Type} [CommRing R] [LinearOrder R] (env : NumEnv R)
    (sys : QSystem R) (states0 : List (List (Cx R))) (rangesD : PDict R)
    (input output : Option PKey) (hamiltonian : Option (Operator R))
    (components : List PKey) (params : PDict R) (hamiltonian_init : Option (Operator R))
    (components_init : Option (List PKey)) (params_init : Option (PDict R))
    (complete : Bool)
    (herr : rowWriteErr (esIndices env sys states0 input output hamiltonian_init
        hamiltonian components_init components params params_init) complete sys.dim
        (esRows sys states0 input output params complete) = none) :
    (energy_spectrum env sys states0 (RangesArg.dict rangesD) input output hamiltonian
        components params hamiltonian_init components_init params_init complete).trace
        = [Ev.eigInit (params_init.getD params)
            ((esResolveInitH env sys hamiltonian_init hamiltonian components_init
              components params output).eval (params_init.getD params)), Ev.assign]
          ++ (if (esIndices env sys states0 input output hamiltonian_init hamiltonian
              components_init components params params_init).Nodup then []
              else [Ev.warn])
          ++ (List.range (esN sys rangesD params)).map
            (fun i => Ev.eigSweep i (esVals params (esRvals sys rangesD params) i)
              ((esHam env sys hamiltonian components params output).eval
                (esVals params (esRvals sys rangesD params) i)))
      ∧ (energy_spectrum env sys states0 (RangesArg.dict rangesD) input output hamiltonian
          components params hamiltonian_init components_init params_init complete).result
        = ESOut.ok (esCols env sys states0 rangesD input output hamiltonian components
            params hamiltonian_init components_init params_init complete)
      ∧ getRef (energy_spectrum env sys states0 (RangesArg.dict rangesD) input output
          hamiltonian components params hamiltonian_init components_init params_init
          complete).store 0 = params := by
  obtain ⟨c1, c2, c3, _⟩ := sweepLoop_spec env
    (esHam env sys hamiltonian components params output) (esRvals sys rangesD params)
    (esIndices env sys states0 input output hamiltonian_init hamiltonian components_init
      components params params_init) complete sys.dim
    (esRows sys states0 input output params complete) params herr
    (List.range (esN sys rangesD params)) [params, listDictUpdate params rangesD] rfl
    (by simp)
  have hrun : energy_spectrum env sys states0 (RangesArg.dict rangesD) input output
      hamiltonian components params hamiltonian_init components_init params_init complete
      = ⟨[Ev.eigInit (params_init.getD params)
            ((esResolveInitH env sys hamiltonian_init hamiltonian components_init
              components params output).eval (params_init.getD params)), Ev.assign]
          ++ (if (esIndices env sys states0 input output hamiltonian_init hamiltonian
              components_init components params params_init).Nodup then []
              else [Ev.warn])
          ++ (sweepLoop env (esHam env sys hamiltonian components params output) 0
              (esRvals sys rangesD params)
              (esIndices env sys states0 input output hamiltonian_init hamiltonian
                components_init components params params_init) complete sys.dim
              (esRows sys states0 input output params complete)
              [params, listDictUpdate params rangesD]
              (List.range (esN sys rangesD params))).2.2,
         toESOut (sweepLoop env (esHam env sys hamiltonian components params output) 0
              (esRvals sys rangesD params)
              (esIndices env sys states0 input output hamiltonian_init hamiltonian
                components_init components params params_init) complete sys.dim
              (esRows sys states0 input output params complete)
              [params, listDictUpdate params rangesD]
              (List.range (esN sys rangesD params))).2.1,
         (sweepLoop env (esHam env sys hamiltonian components params output) 0
              (esRvals sys rangesD params)
              (esIndices env sys states0 input output hamiltonian_init hamiltonian
                components_init components params params_init) complete sys.dim
              (esRows sys states0 input output params complete)
              [params, listDictUpdate params rangesD]
              (List.range (esN sys rangesD params))).1⟩ := rfl
  rw [hrun]
  refine ⟨by rw [c2], ?_, c3⟩
  rw [c1]
  rfl

/-- There are exactly as many assigned slots as supplied (transformed)
states. -/
theorem esIndices_length {R : Type} [CommRing R] [LinearOrder R] (env : NumEnv R)
    (sys : QSystem R) (states0 : List (List (Cx R))) (input output : Option PKey)
    (hamiltonian_init hamiltonian : Option (Operator R))
    (components_init : Option (List PKey)) (components : List PKey)
    (params : PDict R) (params_init : Option (PDict R)) :
    (esIndices env sys states0 input output hamiltonian_init hamiltonian components_init
        components params params_init).length
      = (sys.subspace states0 input output params).length :=
  List.length_map _ _

/-- The shape check passes when the tracked rows fit and, in complete mode, the
tracked and untracked rows together fit. -/
theorem rowWriteErr_eq_none (indices : List Nat) (complete : Bool) (dim rows : Nat)
    (h1 : indices.length ≤ rows)
    (h2 : complete = true
      → indices.length + (untrackedSlots dim indices).length ≤ rows) :
    rowWriteErr indices complete dim rows = none := by
  cases complete with
  | false => simp [rowWriteErr, Nat.not_lt.mpr h1]
  | true => simp [rowWriteErr, Nat.not_lt.mpr h1, Nat.not_lt.mpr (h2 rfl)]

/-- A passing shape check bounds the tracked rows by the row count. -/
theorem rowWriteErr_none_length_le (indices : List Nat) (complete : Bool) (dim rows : Nat)
    (h : rowWriteErr indices complete dim rows = none) : indices.length ≤ rows := by
  by_cases h1 : rows < indices.length
  · simp [rowWriteErr, h1] at h
  · omega

/-- Counting slots: the distinct tracked slots below dim plus the untracked
slots cover all of them, so dim is at most the deduplicated assignment length
plus the untracked slot count. -/
theorem untracked_length_lower (indices : List Nat) (dim : Nat) :
    dim ≤ indices.dedup.length + (untrackedSlots dim indices).length := by
  have hperm := List.filter_append_perm (fun k => decide (k ∈ indices)) (List.range dim)
  have hlen : ((List.range dim).filter (fun k => decide (k ∈ indices))).length
      + ((List.range dim).filter (fun k => !(decide (k ∈ indices)))).length = dim := by
    have h := hperm.length_eq
    simpa using h
  have hU : untrackedSlots dim indices
      = (List.range dim).filter (fun k => !(decide (k ∈ indices))) := by
    simp only [untrackedSlots, decide_not]
  have hT : ((List.range dim).filter (fun k => decide (k ∈ indices))).length
      ≤ indices.dedup.length := by
    have hnd : ((List.range dim).filter (fun k => decide (k ∈ indices))).Nodup :=
      (List.nodup_range dim).filter _
    have hsub : (List.range dim).filter (fun k => decide (k ∈ indices))
        ⊆ indices.dedup := by
      intro a ha
      have hmem := (List.mem_filter.mp ha).2
      simp only [decide_eq_true_eq] at hmem
      exact List.mem_dedup.mpr hmem
    exact (hnd.subperm hsub).length_le
  rw [hU]
  omega

/-- A list with a repeated element strictly shrinks under deduplication. -/
theorem dedup_length_lt_of_not_nodup (l : List Nat) (h : ¬ l.Nodup) :
    l.dedup.length < l.length := by
  have hsub := List.dedup_sublist l
  have hle := hsub.length_le
  rcases Nat.lt_or_ge l.dedup.length l.length with hlt | hge
  · exact hlt
  · exact absurd ((hsub.eq_of_length (Nat.le_antisymm hle hge)) ▸ l.nodup_dedup) h

/-- In complete mode over a square results array, a non-injective assignment
always trips the shape check: either the tracked rows already overflow, or the
fill of lines 100-104 runs past the last row. -/
theorem rowWriteErr_nonNodup (indices : List Nat) (dim : Nat)
    (hnd : ¬ indices.Nodup) :
    rowWriteErr indices true dim dim = some ESErr.broadcastMismatch
      ∨ rowWriteErr indices true dim dim = some ESErr.indexOutOfRange := by
  by_cases h1 : dim < indices.length
  · left
    simp [rowWriteErr, h1]
  · right
    have h2 := untracked_length_lower indices dim
    have h3 := dedup_length_lt_of_not_nodup indices hnd
    have h4 : dim < indices.length + (untrackedSlots dim indices).length := by omega
    simp [rowWriteErr, h1, h4]

/-- A dict-ranges run with at least one sweep point whose shape check fails
raises that error. -/
theorem energy_spectrum_dict_err {R : Type} [CommRing R] [LinearOrder R] (env : NumEnv R)
    (sys : QSystem R) (states0 : List (List (Cx R))) (rangesD : PDict R)
    (input output : Option PKey) (hamiltonian : Option (Operator R))
    (components : List PKey) (params : PDict R) (hamiltonian_init : Option (Operator R))
    (components_init : Option (List PKey)) (params_init : Option (PDict R))
    (complete : Bool) (e : ESErr)
    (herr : rowWriteErr (esIndices env sys states0 input output hamiltonian_init
        hamiltonian components_init components params params_init) complete sys.dim
        (esRows sys states0 input output params complete) = some e)
    (hn : 0 < esN sys rangesD params) :
    (energy_spectrum env sys states0 (RangesArg.dict rangesD) input output hamiltonian
        components params hamiltonian_init components_init params_init complete).result
      = ESOut.err e := by
  obtain ⟨m, hm⟩ : ∃ m, esN sys rangesD params = m + 1 :=
    ⟨esN sys rangesD params - 1, by omega⟩
  have hrange : List.range (esN sys rangesD params)
      = 0 :: List.map Nat.succ (List.range m) := by
    rw [hm, List.range_succ_eq_map]
  have hrun : (energy_spectrum env sys states0 (RangesArg.dict rangesD) input output
      hamiltonian components params hamiltonian_init components_init params_init
      complete).result
      = toESOut (sweepLoop env (esHam env sys hamiltonian components params output) 0
          (esRvals sys rangesD params)
          (esIndices env sys states0 input output hamiltonian_init hamiltonian
            components_init components params params_init) complete sys.dim
          (esRows sys states0 input output params complete)
          [params, listDictUpdate params rangesD]
          (List.range (esN sys rangesD params))).2.1 := rfl
  rw [hrun, hrange]
  obtain ⟨e1, _, _⟩ := sweepLoop_err_spec env
    (esHam env sys hamiltonian components params output) (esRvals sys rangesD params)
    (esIndices env sys states0 input output hamiltonian_init hamiltonian components_init
      components params params_init) complete sys.dim
    (esRows sys states0 input output params complete) params e herr 0
    (List.map Nat.succ (List.range m)) [params, listDictUpdate params rangesD] rfl
    (by simp)
  rw [e1]
  rfl

/-- In every dict-ranges run, aborted or not, the warning event is traced
exactly when the slot assignment is not injective. -/
theorem energy_spectrum_warn_iff {R : Type} [CommRing R] [LinearOrder R] (env : NumEnv R)
    (sys : QSystem R) (states0 : List (List (Cx R))) (rangesD : PDict R)
    (input output : Option PKey) (hamiltonian : Option (Operator R))
    (components : List PKey) (params : PDict R) (hamiltonian_init : Option (Operator R))
    (components_init : Option (List PKey)) (params_init : Option (PDict R))
    (complete : Bool) :
    Ev.warn ∈ (energy_spectrum env sys states0 (RangesArg.dict rangesD) input output
        hamiltonian components params hamiltonian_init components_init params_init
        complete).trace
      ↔ ¬ (esIndices env sys states0 input output hamiltonian_init hamiltonian
          components_init components params params_init).Nodup := by
  have hrec : (energy_spectrum env sys states0 (RangesArg.dict rangesD) input output
      hamiltonian components params hamiltonian_init components_init params_init
      complete).trace
      = [Ev.eigInit (params_init.getD params)
          ((esResolveInitH env sys hamiltonian_init hamiltonian components_init
            components params output).eval (params_init.getD params)), Ev.assign]
        ++ (if (esIndices env sys states0 input output hamiltonian_init hamiltonian
            components_init components params params_init).Nodup then []
            else [Ev.warn])
        ++ (sweepLoop env (esHam env sys hamiltonian components params output) 0
            (esRvals sys rangesD params)
            (esIndices env sys states0 input output hamiltonian_init hamiltonian
              components_init components params params_init) complete sys.dim
            (esRows sys states0 input output params complete)
            [params, listDictUpdate params rangesD]
            (List.range (esN sys rangesD params))).2.2 := rfl
  have hno := sweepLoop_events_no_warn env
    (esHam env sys hamiltonian components params output) 0 (esRvals sys rangesD params)
    (esIndices env sys states0 input output hamiltonian_init hamiltonian components_init
      components params params_init) complete sys.dim
    (esRows sys states0 input output params complete)
    (List.range (esN sys rangesD params)) [params, listDictUpdate params rangesD]
  rw [hrec]
  by_cases h : (esIndices env sys states0 input output hamiltonian_init hamiltonian
      components_init components params params_init).Nodup
  · simp [h, hno]
  · simp [h]

/-- C6: for every non-dict ranges argument, energy_spectrum fails with the
invalid-range-spec ValueError of line 60, and its event trace is empty, so no
eigendecomposition of either Hamiltonian is reached. -/
theorem claim_C6_nondict_ranges {R : Type} [CommRing R] [LinearOrder R] (env : NumEnv R)
    (sys : QSystem R) (states0 : List (List (Cx R))) (tag : Nat)
    (input output : Option PKey) (hamiltonian : Option (Operator R))
    (components : List PKey) (params : PDict R) (hamiltonian_init : Option (Operator R))
    (components_init : Option (List PKey)) (params_init : Option (PDict R))
    (complete : Bool) :
    (energy_spectrum env sys states0 (RangesArg.nondict tag) input output hamiltonian
        components params hamiltonian_init components_init params_init complete).result
        = ESOut.err ESErr.invalidRangeSpec
      ∧ (energy_spectrum env sys states0 (RangesArg.nondict tag) input output hamiltonian
          components params hamiltonian_init components_init params_init
          complete).trace = [] :=
  ⟨rfl, rfl⟩

/-- C10: energy_spectrum never mutates the caller's params dict object: for
every ranges argument (mapping or not), after the run the store still holds the
original params value at the caller's reference. -/
theorem claim_C10_params_unmutated {R : Type} [CommRing R] [LinearOrder R] (env : NumEnv R)
    (sys : QSystem R) (states0 : List (List (Cx R))) (ranges : RangesArg R)
    (input output : Option PKey) (hamiltonian : Option (Operator R))
    (components : List PKey) (params : PDict R) (hamiltonian_init : Option (Operator R))
    (components_init : Option (List PKey)) (params_init : Option (PDict R))
    (complete : Bool) :
    getRef (energy_spectrum env sys states0 ranges input output hamiltonian components
        params hamiltonian_init components_init params_init complete).store 0 = params := by
  cases ranges with
  | nondict tag => rfl
  | dict rangesD =>
    have hrec : (energy_spectrum env sys states0 (RangesArg.dict rangesD) input output
        hamiltonian components params hamiltonian_init components_init params_init
        complete).store
        = (sweepLoop env (esHam env sys hamiltonian components params output) 0
            (esRvals sys rangesD params)
            (esIndices env sys states0 input output hamiltonian_init hamiltonian
              components_init components params params_init) complete sys.dim
            (esRows sys states0 input output params complete)
            [params, listDictUpdate params rangesD]
            (List.range (esN sys rangesD params))).1 := rfl
    rw [hrec]
    exact sweepLoop_store_ref0 env (esHam env sys hamiltonian components params output)
      (esRvals sys rangesD params)
      (esIndices env sys states0 input output hamiltonian_init hamiltonian
        components_init components params params_init) complete sys.dim
      (esRows sys states0 input output params complete) params
      (List.range (esN sys rangesD params)) [params, listDictUpdate params rangesD] rfl
      (by simp)

/-- C7 amended: in every run with a mapping ranges argument, the non-fatal
warning of line 71 appears in the trace exactly when two or more supplied
states were assigned the same slot; with complete left False, the sweep then
still completes, returning the columns computed from the (possibly ambiguous)
slot assignment; but with complete=True, a non-injective assignment makes the
sweep's first iteration overrun the results array (lines 98-104), so the run
aborts with numpy's shape error instead of producing output. -/
theorem claim_C7_amended {R : Type} [CommRing R] [LinearOrder R]
    (env : NumEnv R) (sys : QSystem R) (states0 : List (List (Cx R))) (rangesD : PDict R)
    (input output : Option PKey) (hamiltonian : Option (Operator R))
    (components : List PKey) (params : PDict R) (hamiltonian_init : Option (Operator R))
    (components_init : Option (List PKey)) (params_init : Option (PDict R))
    (complete : Bool) :
    ((Ev.warn ∈ (energy_spectrum env sys states0 (RangesArg.dict rangesD) input output
          hamiltonian components params hamiltonian_init components_init params_init
          complete).trace)
        ↔ ¬ (esIndices env sys states0 input output hamiltonian_init hamiltonian
            components_init components params params_init).Nodup)
      ∧ (complete = false
        → (energy_spectrum env sys states0 (RangesArg.dict rangesD) input output
            hamiltonian components params hamiltonian_init components_init params_init
            complete).result
          = ESOut.ok (esCols env sys states0 rangesD input output hamiltonian components
              params hamiltonian_init components_init params_init complete))
      ∧ (complete = true
        → ¬ (esIndices env sys states0 input output hamiltonian_init hamiltonian
            components_init components params params_init).Nodup
        → 0 < esN sys rangesD params
        → (energy_spectrum env sys states0 (RangesArg.dict rangesD) input output
              hamiltonian components params hamiltonian_init components_init params_init
              complete).result = ESOut.err ESErr.broadcastMismatch
          ∨ (energy_spectrum env sys states0 (RangesArg.dict rangesD) input output
              hamiltonian components params hamiltonian_init components_init params_init
              complete).result = ESOut.err ESErr.indexOutOfRange) := by
  refine ⟨energy_spectrum_warn_iff env sys states0 rangesD input output hamiltonian
    components params hamiltonian_init components_init params_init complete, ?_, ?_⟩
  · intro hc
    subst hc
    have herr : rowWriteErr (esIndices env sys states0 input output hamiltonian_init
        hamiltonian components_init components params params_init) false sys.dim
        (esRows sys states0 input output params false) = none := by
      refine rowWriteErr_eq_none _ _ _ _ ?_ (fun h => Bool.noConfusion h)
      exact le_of_eq (esIndices_length env sys states0 input output hamiltonian_init
        hamiltonian components_init components params params_init)
    exact (energy_spectrum_dict_run env sys states0 rangesD input output hamiltonian
      components params hamiltonian_init components_init params_init false herr).2.1
  · intro hc hnd hn
    subst hc
    rcases rowWriteErr_nonNodup (esIndices env sys states0 input output hamiltonian_init
      hamiltonian components_init components params params_init) sys.dim hnd with h | h
    · exact Or.inl (energy_spectrum_dict_err env sys states0 rangesD input output
        hamiltonian components params hamiltonian_init components_init params_init true
        ESErr.broadcastMismatch h hn)
    · exact Or.inr (energy_spectrum_dict_err env sys states0 rangesD input output
        hamiltonian components params hamiltonian_init components_init params_init true
        ESErr.indexOutOfRange h hn)

/-- C9 amended, first half: lines 49-54 resolve the initial Hamiltonian as
hamiltonian_init, else the supplied hamiltonian, else system.H of
components_init falling back to components, and change its basis to the output
basis under params (not under params_init). -/
theorem esResolveInitH_eq_getD {R : Type} (env : NumEnv R) (sys : QSystem R)
    (hamiltonian_init hamiltonian : Option (Operator R))
    (components_init : Option (List PKey)) (components : List PKey)
    (params : PDict R) (output : Option PKey) :
    esResolveInitH env sys hamiltonian_init hamiltonian components_init components params
        output
      = env.changeBasis
          (hamiltonian_init.getD (hamiltonian.getD (sys.Hof (components_init.getD
            components))))
          (sys.basisOf output) params := by
  cases hamiltonian_init <;> cases hamiltonian <;> rfl

/-- C9 amended: the initial Hamiltonian defaults to the supplied hamiltonian,
else to system.H of components_init falling back to components; its basis
change to the output basis happens under params; and the initial
eigendecomposition (the first trace event of every mapping-ranges run) is
evaluated under params_init, which defaults to params. -/
theorem claim_C9_amended {R : Type} [CommRing R] [LinearOrder R] (env : NumEnv R)
    (sys : QSystem R) (states0 : List (List (Cx R))) (rangesD : PDict R)
    (input output : Option PKey) (hamiltonian : Option (Operator R))
    (components : List PKey) (params : PDict R) (hamiltonian_init : Option (Operator R))
    (components_init : Option (List PKey)) (params_init : Option (PDict R))
    (complete : Bool) :
    esResolveInitH env sys hamiltonian_init hamiltonian components_init components params
        output
      = env.changeBasis
          (hamiltonian_init.getD (hamiltonian.getD (sys.Hof (components_init.getD
            components))))
          (sys.basisOf output) params
      ∧ (energy_spectrum env sys states0 (RangesArg.dict rangesD) input output hamiltonian
          components params hamiltonian_init components_init params_init
          complete).trace.head?
        = some (Ev.eigInit (params_init.getD params)
            ((esResolveInitH env sys hamiltonian_init hamiltonian components_init
              components params output).eval (params_init.getD params))) := by
  exact ⟨esResolveInitH_eq_getD env sys hamiltonian_init hamiltonian components_init
    components params output, rfl⟩

/-- Concrete basis-change counterexample ingredients over the integers: the
basis-change collaborator returns an operator that records the numeric value of
parameter 1 in the context it was handed. -/
def numLookup {R : Type} [CommRing R] (d : PDict R) (k : PKey) : R :=
  match d.find? (fun kv => kv.1 == k) with
  | some (_, PVal.num x) => x
  | _ => 0

/-- A constant 1-by-1 initial Hamiltonian operator. -/
def hOpZ : Operator ℤ := ⟨fun _ => [[⟨3, 0⟩]]⟩

/-- A concrete one-dimensional system collaborator. -/
def sysZ : QSystem ℤ :=
  { dim := 1
    Hof := fun _ => hOpZ
    basisOf := fun b => b
    subspace := fun sts _ _ _ => sts
    prange := fun _ _ => RangeResult.arr [0] }

/-- A concrete numerics collaborator whose basis change records the parameter
context it was given. -/
def envZ : NumEnv ℤ :=
  { changeBasis := fun _ _ d => ⟨fun _ => [[⟨numLookup d 1, 0⟩]]⟩
    eig := fun _ => ([0], [[⟨1, 0⟩]])
    eigvals := fun _ => [0] }

/-- C9 counterexample: with params mapping key 1 to 1 and a supplied params_init
mapping key 1 to 2, the resolved initial Hamiltonian of lines 49-54 is the one
basis-changed under params (it evaluates to 1), not the one basis-changed under
params_init as the claim states (that one evaluates to 2). -/
theorem claim_C9_counterexample :
    (esResolveInitH envZ sysZ (some hOpZ) none none [] [(1, PVal.num (1 : ℤ))] none).eval []
        = [[(⟨1, 0⟩ : Cx ℤ)]]
      ∧ (envZ.changeBasis hOpZ (sysZ.basisOf none)
          ((some [(1, PVal.num (2 : ℤ))]).getD [(1, PVal.num (1 : ℤ))])).eval []
        = [[(⟨2, 0⟩ : Cx ℤ)]]
      ∧ ¬ ((esResolveInitH envZ sysZ (some hOpZ) none none [] [(1, PVal.num (1 : ℤ))]
            none).eval []
          = (envZ.changeBasis hOpZ (sysZ.basisOf none)
              ((some [(1, PVal.num (2 : ℤ))]).getD [(1, PVal.num (1 : ℤ))])).eval []) := by
  refine ⟨?_, ?_, ?_⟩ <;> decide

/-- The labelling rule as the specification words it: the index of the
maximum-magnitude overlap (equivalently of the maximum squared modulus), the
first index winning ties. -/
def magArgmaxAux {R : Type} [CommRing R] [LinearOrder R] : List (Cx R) → R → Nat → Nat → Nat
  | [], _, bi, _ => bi
  | v :: rest, bv, bi, cur =>
    if bv < v.re * v.re + v.im * v.im then
      magArgmaxAux rest (v.re * v.re + v.im * v.im) cur (cur + 1)
    else magArgmaxAux rest bv bi (cur + 1)

/-- Index of the maximum-magnitude entry of a complex list (the labelling the
specification describes). -/
def magArgmax {R : Type} [CommRing R] [LinearOrder R] : List (Cx R) → Nat
  | [] => 0
  | x :: xs => magArgmaxAux xs (x.re * x.re + x.im * x.im) 0 1

/-- The 2-by-2 identity matrix of sorted eigenvectors for the C1 failing
input. -/
def idEvecs2 : Mat ℤ := [[⟨1, 0⟩, ⟨0, 0⟩], [⟨0, 0⟩, ⟨1, 0⟩]]

/-- C1: the failing input evaluated.  Line 69 takes np.argmax of the raw
complex overlaps, and numpy orders complex values lexicographically by real
part then imaginary part, not by magnitude.  Against the identity eigenvector
matrix, the state (1,0) is assigned slot 0, while the same state scaled by the
unit-modulus factor -1 is assigned slot 1 (its overlap -1 at slot 0 loses to 0
at slot 1), although its maximum-magnitude overlap is still at slot 0, as the
claim requires of both states. -/
theorem claim_C1_failing_input :
    assignIndices [[(⟨1, 0⟩ : Cx ℤ), ⟨0, 0⟩]] idEvecs2 = [0]
      ∧ assignIndices [List.map (cxMul (⟨-1, 0⟩ : Cx ℤ)) [⟨1, 0⟩, ⟨0, 0⟩]] idEvecs2 = [1]
      ∧ magArgmax (rowDotMat (List.map (cxMul (⟨-1, 0⟩ : Cx ℤ)) [⟨1, 0⟩, ⟨0, 0⟩]) idEvecs2)
        = 0
      ∧ ((⟨-1, 0⟩ : Cx ℤ).re * (⟨-1, 0⟩ : Cx ℤ).re
          + (⟨-1, 0⟩ : Cx ℤ).im * (⟨-1, 0⟩ : Cx ℤ).im) = 1 := by
  refine ⟨?_, ?_, ?_, ?_⟩ <;> decide

/-- The complete-mode loop only writes at positions from pos upward: entries
below pos are untouched. -/
theorem completeFillAux_getD_lt {R : Type} [CommRing R] (evals : List R)
    (indices : List Nat) :
    ∀ (ks : List Nat) (col : List R) (pos j : Nat), j < pos →
      (completeFillAux evals indices col pos ks).getD j 0 = col.getD j 0 := by
  intro ks
  induction ks with
  | nil => intro col pos j _; rfl
  | cons k rest ih =>
    intro col pos j h
    by_cases hk : k ∈ indices
    · simp only [completeFillAux, if_pos hk]
      exact ih col pos j h
    · simp only [completeFillAux, if_neg hk]
      rw [ih (col.set pos (evals.getD k 0)) (pos + 1) j (Nat.lt_succ_of_lt h)]
      exact listGetD_set_ne col pos j _ 0 (Nat.ne_of_lt h)

/-- Row i of one column holds evals[indices[i]] for every tracked state i. -/
theorem buildColumn_getD_tracked {R : Type} [CommRing R] (evalsS : List R)
    (indices : List Nat) (complete : Bool) (dim rows : Nat) (i : Nat)
    (hi : i < indices.length) (_hrows : indices.length ≤ rows) :
    (buildColumn evalsS indices complete dim rows).getD i 0
      = evalsS.getD (indices.getD i 0) 0 := by
  have hmem : i < (indices.map fun j => evalsS.getD j 0).length := by
    rw [List.length_map]; exact hi
  have hcol1 : (writeSlice (List.replicate rows (0 : R))
      (indices.map fun j => evalsS.getD j 0)).getD i 0
      = evalsS.getD (indices.getD i 0) 0 := by
    rw [writeSlice, List.getD_append _ _ _ _ hmem, List.getD_eq_getElem _ _ hmem,
      List.getElem_map, List.getD_eq_getElem indices 0 hi]
  cases complete with
  | false => simpa [buildColumn] using hcol1
  | true =>
    simp only [buildColumn, if_true]
    rw [completeFillAux_getD_lt evalsS indices (List.range dim) _ indices.length i hi]
    exact hcol1

/-- Column k of the result array is the column the loop body computes for sweep
point k. -/
theorem esCols_getD {R : Type} [CommRing R] [LinearOrder R] (env : NumEnv R)
    (sys : QSystem R) (states0 : List (List (Cx R))) (rangesD : PDict R)
    (input output : Option PKey) (hamiltonian : Option (Operator R))
    (components : List PKey) (params : PDict R) (hamiltonian_init : Option (Operator R))
    (components_init : Option (List PKey)) (params_init : Option (PDict R))
    (complete : Bool) (k : Nat) (hk : k < esN sys rangesD params) :
    (esCols env sys states0 rangesD input output hamiltonian components params
        hamiltonian_init components_init params_init complete).getD k []
      = esColumn env (esHam env sys hamiltonian components params output) params
          (esRvals sys rangesD params)
          (esIndices env sys states0 input output hamiltonian_init hamiltonian
            components_init components params params_init)
          complete sys.dim (esRows sys states0 input output params complete) k := by
  have hk' : k < ((List.range (esN sys rangesD params)).map
      (esColumn env (esHam env sys hamiltonian components params output) params
        (esRvals sys rangesD params)
        (esIndices env sys states0 input output hamiltonian_init hamiltonian
          components_init components params params_init)
        complete sys.dim (esRows sys states0 input output params complete))).length := by
    simpa using hk
  rw [esCols, List.getD_eq_getElem _ _ hk', List.getElem_map]
  congr 1
  simp

/-- C4: in a mapping-ranges run that produces its output array (the shape check
of the row writes passes, which confines the statement to the runs where the
embedding and the numpy writes agree exactly), row i of column k of the result
equals the ascending-sorted eigenvalues of the evolution Hamiltonian at sweep
point k, indexed by the slot assigned to state i at the initial parameter
point; the slot assignment happens exactly once, before the sweep (the trace
holds exactly one assignment event, placed before every sweep event), and is
never recomputed at any later sweep point. -/
theorem claim_C4_adiabatic_indexing {R : Type} [CommRing R] [LinearOrder R]
    (env : NumEnv R) (sys : QSystem R) (states0 : List (List (Cx R))) (rangesD : PDict R)
    (input output : Option PKey) (hamiltonian : Option (Operator R))
    (components : List PKey) (params : PDict R) (hamiltonian_init : Option (Operator R))
    (components_init : Option (List PKey)) (params_init : Option (PDict R))
    (complete : Bool) (k i : Nat)
    (h : k < esN sys rangesD params
      ∧ i < (esIndices env sys states0 input output hamiltonian_init hamiltonian
          components_init components params params_init).length
      ∧ rowWriteErr (esIndices env sys states0 input output hamiltonian_init hamiltonian
          components_init components params params_init) complete sys.dim
          (esRows sys states0 input output params complete) = none) :
    (energy_spectrum env sys states0 (RangesArg.dict rangesD) input output hamiltonian
        components params hamiltonian_init components_init params_init complete).result
        = ESOut.ok (esCols env sys states0 rangesD input output hamiltonian components
            params hamiltonian_init components_init params_init complete)
      ∧ ((esCols env sys states0 rangesD input output hamiltonian components params
            hamiltonian_init components_init params_init complete).getD k []).getD i 0
        = (sortR (env.eigvals ((esHam env sys hamiltonian components params output).eval
            (esVals params (esRvals sys rangesD params) k)))).getD
            ((esIndices env sys states0 input output hamiltonian_init hamiltonian
              components_init components params params_init).getD i 0) 0
      ∧ (energy_spectrum env sys states0 (RangesArg.dict rangesD) input output hamiltonian
          components params hamiltonian_init components_init params_init complete).trace
        = [Ev.eigInit (params_init.getD params)
            ((esResolveInitH env sys hamiltonian_init hamiltonian components_init
              components params output).eval (params_init.getD params)), Ev.assign]
          ++ (if (esIndices env sys states0 input output hamiltonian_init hamiltonian
              components_init components params params_init).Nodup then []
              else [Ev.warn])
          ++ (List.range (esN sys rangesD params)).map
            (fun j => Ev.eigSweep j (esVals params (esRvals sys rangesD params) j)
              ((esHam env sys hamiltonian components params output).eval
                (esVals params (esRvals sys rangesD params) j)))
      ∧ (energy_spectrum env sys states0 (RangesArg.dict rangesD) input output hamiltonian
          components params hamiltonian_init components_init params_init
          complete).trace.count Ev.assign = 1 := by
  obtain ⟨hk, hi, herr⟩ := h
  obtain ⟨ht, hr, _⟩ := energy_spectrum_dict_run env sys states0 rangesD input output
    hamiltonian components params hamiltonian_init components_init params_init complete
    herr
  have hmap : ((List.range (esN sys rangesD params)).map
      (fun j => Ev.eigSweep j (esVals params (esRvals sys rangesD params) j)
        ((esHam env sys hamiltonian components params output).eval
          (esVals params (esRvals sys rangesD params) j)))).count (Ev.assign : Ev R)
      = 0 :=
    List.count_eq_zero.mpr (by simp)
  refine ⟨hr, ?_, ht, ?_⟩
  · rw [esCols_getD env sys states0 rangesD input output hamiltonian components params
      hamiltonian_init components_init params_init complete k hk, esColumn]
    exact buildColumn_getD_tracked _ _ _ _ _ i hi
      (rowWriteErr_none_length_le _ _ _ _ herr)
  · rw [ht]
    by_cases hnd : (esIndices env sys states0 input output hamiltonian_init hamiltonian
        components_init components params params_init).Nodup <;>
      simp [hnd, List.count_append, List.count_cons, hmap]

/-- Reading every position of a list in order reproduces the list. -/
theorem range_map_getD {R : Type} [CommRing R] (l : List R) :
    (List.range l.length).map (fun k => l.getD k 0) = l := by
  apply List.ext_getElem (by simp)
  intro i h1 h2
  simp only [List.getElem_map, List.getElem_range]
  exact List.getD_eq_getElem l 0 h2

/-- Inserting into a sorted list permutes with consing. -/
theorem insertAsc_perm {R : Type} [LinearOrder R] (x : R) (l : List R) :
    (insertAsc x l).Perm (x :: l) := by
  induction l with
  | nil => exact List.Perm.refl _
  | cons y ys ih =>
    by_cases h : x ≤ y
    · simp [insertAsc, h]
    · simp only [insertAsc, if_neg h]
      exact (ih.cons y).trans (List.Perm.swap x y ys)

/-- The sorted eigenvalues are a permutation of the eigenvalues. -/
theorem sortR_perm {R : Type} [LinearOrder R] (l : List R) : (sortR l).Perm l := by
  induction l with
  | nil => exact List.Perm.refl _
  | cons x xs ih => exact (insertAsc_perm x (sortR xs)).trans (ih.cons x)

/-- Sorting preserves length. -/
theorem sortR_length {R : Type} [LinearOrder R] (l : List R) :
    (sortR l).length = l.length :=
  (sortR_perm l).length_eq

/-- When the assignment is injective and in range, the tracked and untracked
slots together are exactly all dim slots. -/
theorem tracked_untracked_perm (indices : List Nat) (dim : Nat)
    (hnd : indices.Nodup) (hbd : ∀ j ∈ indices, j < dim) :
    (indices ++ untrackedSlots dim indices).Perm (List.range dim) := by
  have hnd2 : (untrackedSlots dim indices).Nodup := (List.nodup_range dim).filter _
  have hdisj : indices.Disjoint (untrackedSlots dim indices) := by
    intro a ha hb
    have hmem := (List.mem_filter.mp hb).2
    simp only [decide_eq_true_eq] at hmem
    exact hmem ha
  refine (List.perm_ext_iff_of_nodup (hnd.append hnd2 hdisj) (List.nodup_range dim)).mpr ?_
  intro a
  constructor
  · intro ha
    rcases List.mem_append.mp ha with h1 | h2
    · exact List.mem_range.mpr (hbd a h1)
    · exact (List.mem_filter.mp h2).1
  · intro ha
    by_cases hmem : a ∈ indices
    · exact List.mem_append.mpr (Or.inl hmem)
    · exact List.mem_append.mpr (Or.inr (List.mem_filter.mpr ⟨ha, by simpa using hmem⟩))

/-- Slot count bookkeeping: tracked plus untracked equals dim. -/
theorem tracked_untracked_length (indices : List Nat) (dim : Nat)
    (hnd : indices.Nodup) (hbd : ∀ j ∈ indices, j < dim) :
    indices.length + (untrackedSlots dim indices).length = dim := by
  have h := (tracked_untracked_perm indices dim hnd hbd).length_eq
  simpa using h

/-- Lines 100-104 write exactly the untracked eigenvalues, in slot order, into
the consecutive rows from pos upward, leaving everything else in place. -/
theorem completeFillAux_spec {R : Type} [CommRing R] (evals : List R)
    (indices : List Nat) :
    ∀ (ks : List Nat) (col : List R) (pos : Nat),
      pos + (ks.filter (fun k => decide (k ∉ indices))).length ≤ col.length →
      completeFillAux evals indices col pos ks
        = col.take pos
          ++ (ks.filter (fun k => decide (k ∉ indices))).map (fun k => evals.getD k 0)
          ++ col.drop (pos + (ks.filter (fun k => decide (k ∉ indices))).length) := by
  intro ks
  induction ks with
  | nil =>
    intro col pos _
    simp [completeFillAux, List.take_append_drop]
  | cons k rest ih =>
    intro col pos hle
    by_cases hk : k ∈ indices
    · have hfil : (k :: rest).filter (fun j => decide (j ∉ indices))
          = rest.filter (fun j => decide (j ∉ indices)) := by
        simp [List.filter_cons, hk]
      rw [hfil] at hle ⊢
      simp only [completeFillAux, if_pos hk]
      exact ih col pos hle
    · have hfil : (k :: rest).filter (fun j => decide (j ∉ indices))
          = k :: rest.filter (fun j => decide (j ∉ indices)) := by
        simp [List.filter_cons, hk]
      rw [hfil] at hle ⊢
      have hw : (k :: rest.filter (fun j => decide (j ∉ indices))).length
          = (rest.filter (fun j => decide (j ∉ indices))).length + 1 := by
        simp
      rw [hw] at hle
      have hpos : pos < col.length := by omega
      have hlen2 : pos + 1 + (rest.filter (fun j => decide (j ∉ indices))).length
          ≤ (col.set pos (evals.getD k 0)).length := by
        rw [List.length_set]; omega
      simp only [completeFillAux, if_neg hk]
      rw [ih (col.set pos (evals.getD k 0)) (pos + 1) hlen2]
      have hset : col.set pos (evals.getD k 0)
          = col.take pos ++ evals.getD k 0 :: col.drop (pos + 1) := by
        rw [List.set_eq_take_append_cons_drop, if_pos hpos]
      have htklen : (col.take pos).length = pos := by
        rw [List.length_take]; omega
      have htake : (col.set pos (evals.getD k 0)).take (pos + 1)
          = col.take pos ++ [evals.getD k 0] := by
        rw [hset, List.take_append_eq_append_take, htklen]
        rw [List.take_of_length_le (by omega : (col.take pos).length ≤ pos + 1)]
        congr 1
        have : pos + 1 - pos = 1 := by omega
        rw [this]
        rfl
      have hdrop : (col.set pos (evals.getD k 0)).drop
            (pos + 1 + (rest.filter (fun j => decide (j ∉ indices))).length)
          = col.drop (pos + 1 + (rest.filter (fun j => decide (j ∉ indices))).length) :=
        List.drop_set_of_lt _ _ (by omega)
      rw [htake, hdrop, hw]
      have harith : pos + ((rest.filter (fun j => decide (j ∉ indices))).length + 1)
          = pos + 1 + (rest.filter (fun j => decide (j ∉ indices))).length := by omega
      rw [harith]
      simp [List.append_assoc]

/-- In complete mode with an injective in-range assignment, one column is the
tracked eigenvalues followed by the untracked eigenvalues in slot order. -/
theorem buildColumn_complete_spec {R : Type} [CommRing R] (evalsS : List R)
    (indices : List Nat) (dim : Nat) (hnd : indices.Nodup)
    (hbd : ∀ j ∈ indices, j < dim) :
    buildColumn evalsS indices true dim dim
      = indices.map (fun j => evalsS.getD j 0)
        ++ (untrackedSlots dim indices).map (fun k => evalsS.getD k 0) := by
  have hcount := tracked_untracked_length indices dim hnd hbd
  have htr : (indices.map fun j => evalsS.getD j 0).length = indices.length :=
    List.length_map _ _
  have hcol1len : (writeSlice (List.replicate dim (0 : R))
      (indices.map fun j => evalsS.getD j 0)).length = dim := by
    rw [writeSlice, List.length_append, htr, List.length_drop, List.length_replicate]
    omega
  simp only [buildColumn, if_true]
  rw [completeFillAux_spec evalsS indices (List.range dim) _ indices.length
    (by rw [hcol1len]; have : (List.range dim).filter (fun k => decide (k ∉ indices))
          = untrackedSlots dim indices := rfl
        rw [this]; omega)]
  have hfil : (List.range dim).filter (fun k => decide (k ∉ indices))
      = untrackedSlots dim indices := rfl
  rw [hfil]
  have htake : (writeSlice (List.replicate dim (0 : R))
      (indices.map fun j => evalsS.getD j 0)).take indices.length
      = indices.map fun j => evalsS.getD j 0 := by
    rw [writeSlice, List.take_append_eq_append_take, htr]
    rw [List.take_of_length_le (le_of_eq htr)]
    simp
  have hdrop : (writeSlice (List.replicate dim (0 : R))
      (indices.map fun j => evalsS.getD j 0)).drop
        (indices.length + (untrackedSlots dim indices).length) = [] := by
    apply List.drop_eq_nil_of_le
    rw [hcol1len]
    omega
  rw [htake, hdrop, List.append_nil]

/-- C5: for a complete=True run whose slot assignment is injective and in
range, the result has as many columns as sweep points and each column has
system.dim rows; within a column, the rows beyond the tracked count hold the
eigenvalues at the untracked slots in increasing slot order; and the whole
column is a permutation of (the multiset of) all dim eigenvalues of the
evolution Hamiltonian at that sweep point. -/
theorem claim_C5_complete_mode {R : Type} [CommRing R] [LinearOrder R] (env : NumEnv R)
    (sys : QSystem R) (states0 : List (List (Cx R))) (rangesD : PDict R)
    (input output : Option PKey) (hamiltonian : Option (Operator R))
    (components : List PKey) (params : PDict R) (hamiltonian_init : Option (Operator R))
    (components_init : Option (List PKey)) (params_init : Option (PDict R)) (k : Nat)
    (h : k < esN sys rangesD params
      ∧ (esIndices env sys states0 input output hamiltonian_init hamiltonian
          components_init components params params_init).Nodup
      ∧ ∀ j ∈ esIndices env sys states0 input output hamiltonian_init hamiltonian
          components_init components params params_init, j < sys.dim)
    (hlen : (env.eigvals ((esHam env sys hamiltonian components params output).eval
        (esVals params (esRvals sys rangesD params) k))).length = sys.dim) :
    (energy_spectrum env sys states0 (RangesArg.dict rangesD) input output hamiltonian
        components params hamiltonian_init components_init params_init true).result
        = ESOut.ok (esCols env sys states0 rangesD input output hamiltonian components
            params hamiltonian_init components_init params_init true)
      ∧ (esCols env sys states0 rangesD input output hamiltonian components params
          hamiltonian_init components_init params_init true).length
        = esN sys rangesD params
      ∧ ((esCols env sys states0 rangesD input output hamiltonian components params
          hamiltonian_init components_init params_init true).getD k []).length = sys.dim
      ∧ ((esCols env sys states0 rangesD input output hamiltonian components params
          hamiltonian_init components_init params_init true).getD k []).drop
            (esIndices env sys states0 input output hamiltonian_init hamiltonian
              components_init components params params_init).length
        = (untrackedSlots sys.dim (esIndices env sys states0 input output hamiltonian_init
            hamiltonian components_init components params params_init)).map
            (fun j => (sortR (env.eigvals ((esHam env sys hamiltonian components params
              output).eval (esVals params (esRvals sys rangesD params) k)))).getD j 0)
      ∧ ((esCols env sys states0 rangesD input output hamiltonian components params
          hamiltonian_init components_init params_init true).getD k []).Perm
          (env.eigvals ((esHam env sys hamiltonian components params output).eval
            (esVals params (esRvals sys rangesD params) k))) := by
  obtain ⟨hk, hnd, hbd⟩ := h
  have hcnt0 := tracked_untracked_length
    (esIndices env sys states0 input output hamiltonian_init hamiltonian components_init
      components params params_init) sys.dim hnd hbd
  have herr : rowWriteErr (esIndices env sys states0 input output hamiltonian_init
      hamiltonian components_init components params params_init) true sys.dim
      (esRows sys states0 input output params true) = none := by
    refine rowWriteErr_eq_none _ _ _ _ ?_ (fun _ => le_of_eq hcnt0)
    show (esIndices env sys states0 input output hamiltonian_init hamiltonian
      components_init components params params_init).length ≤ sys.dim
    omega
  obtain ⟨_, hr, _⟩ := energy_spectrum_dict_run env sys states0 rangesD input output
    hamiltonian components params hamiltonian_init components_init params_init true herr
  have hcol := esCols_getD env sys states0 rangesD input output hamiltonian components
    params hamiltonian_init components_init params_init true k hk
  have hrows : esRows sys states0 input output params true = sys.dim := rfl
  have hspec := buildColumn_complete_spec
    (sortR (env.eigvals ((esHam env sys hamiltonian components params output).eval
      (esVals params (esRvals sys rangesD params) k))))
    (esIndices env sys states0 input output hamiltonian_init hamiltonian components_init
      components params params_init) sys.dim hnd hbd
  have hcnt := tracked_untracked_length
    (esIndices env sys states0 input output hamiltonian_init hamiltonian components_init
      components params params_init) sys.dim hnd hbd
  rw [hcol, esColumn, hrows, hspec]
  refine ⟨hr, by simp [esCols], ?_, ?_, ?_⟩
  · simp only [List.length_append, List.length_map]
    exact hcnt
  · have hdl := List.drop_left
      ((esIndices env sys states0 input output hamiltonian_init hamiltonian
        components_init components params params_init).map
        (fun j => (sortR (env.eigvals ((esHam env sys hamiltonian components params
          output).eval (esVals params (esRvals sys rangesD params) k)))).getD j 0))
      ((untrackedSlots sys.dim (esIndices env sys states0 input output hamiltonian_init
        hamiltonian components_init components params params_init)).map
        (fun j => (sortR (env.eigvals ((esHam env sys hamiltonian components params
          output).eval (esVals params (esRvals sys rangesD params) k)))).getD j 0))
    rw [List.length_map] at hdl
    exact hdl
  · have hperm := (tracked_untracked_perm
      (esIndices env sys states0 input output hamiltonian_init hamiltonian components_init
        components params params_init) sys.dim hnd hbd).map
      (fun j => (sortR (env.eigvals ((esHam env sys hamiltonian components params
        output).eval (esVals params (esRvals sys rangesD params) k)))).getD j 0)
    rw [← List.map_append]
    refine hperm.trans ?_
    have hdim : (sortR (env.eigvals ((esHam env sys hamiltonian components params
        output).eval (esVals params (esRvals sys rangesD params) k)))).length
        = sys.dim := by
      rw [sortR_length, hlen]
    rw [← hdim, range_map_getD]
    exact sortR_perm _

/-- Concrete eigensolver used by the witnesses: the real parts of the diagonal
(exact for the diagonal matrices the witness system produces). -/
def diagRe (m : Mat ℤ) : List ℤ :=
  (List.range m.length).map (fun i => ((m.getD i []).getD i ⟨0, 0⟩).re)

/-- A concrete diagonal 2-by-2 evolution Hamiltonian whose upper entry moves
with parameter 1. -/
def wOpZ : Operator ℤ :=
  ⟨fun d => [[⟨3 + numLookup d 1, 0⟩, ⟨0, 0⟩], [⟨0, 0⟩, ⟨4, 0⟩]]⟩

/-- A concrete two-dimensional system collaborator sweeping parameter 1 over
two points. -/
def wSysZ : QSystem ℤ :=
  { dim := 2
    Hof := fun _ => wOpZ
    basisOf := fun b => b
    subspace := fun sts _ _ _ => sts
    prange := fun _ _ => RangeResult.dict [(1, [10, 20])] }

/-- A concrete numerics collaborator: identity basis change, diagonal
eigenvalues, identity eigenvector matrix. -/
def wEnvZ : NumEnv ℤ :=
  { changeBasis := fun op _ _ => op
    eig := fun m => (diagRe m, [[⟨1, 0⟩, ⟨0, 0⟩], [⟨0, 0⟩, ⟨1, 0⟩]])
    eigvals := diagRe }

/-- The two tracked basis states used by the witnesses. -/
def wStatesZ : List (List (Cx ℤ)) := [[⟨1, 0⟩, ⟨0, 0⟩], [⟨0, 0⟩, ⟨1, 0⟩]]

/-- The ranges dict of the witnesses: an opaque range spec under key 1. -/
def wRdZ : PDict ℤ := [(1, PVal.rspec [])]

/-- C4 witness: the theorem instantiated on the concrete two-dimensional
integer system with a two-point sweep, at sweep point 0 and tracked state 0. -/
theorem claim_C4_witness :
    (0 < esN wSysZ wRdZ []
      ∧ 0 < (esIndices wEnvZ wSysZ wStatesZ none none none none none [] [] none).length
      ∧ rowWriteErr (esIndices wEnvZ wSysZ wStatesZ none none none none none [] [] none)
          false wSysZ.dim (esRows wSysZ wStatesZ none none [] false) = none)
      ∧ ((energy_spectrum wEnvZ wSysZ wStatesZ (RangesArg.dict wRdZ) none none none [] []
            none none none false).result
          = ESOut.ok (esCols wEnvZ wSysZ wStatesZ wRdZ none none none [] [] none none
              none false)
        ∧ ((esCols wEnvZ wSysZ wStatesZ wRdZ none none none [] [] none none none
              false).getD 0 []).getD 0 0
          = (sortR (wEnvZ.eigvals ((esHam wEnvZ wSysZ none [] [] none).eval
              (esVals [] (esRvals wSysZ wRdZ []) 0)))).getD
              ((esIndices wEnvZ wSysZ wStatesZ none none none none none [] []
                none).getD 0 0) 0
        ∧ (energy_spectrum wEnvZ wSysZ wStatesZ (RangesArg.dict wRdZ) none none none []
              [] none none none false).trace
          = [Ev.eigInit ((none : Option (PDict ℤ)).getD [])
              ((esResolveInitH wEnvZ wSysZ none none none [] [] none).eval
                ((none : Option (PDict ℤ)).getD [])), Ev.assign]
            ++ (if (esIndices wEnvZ wSysZ wStatesZ none none none none none [] []
                none).Nodup then [] else [Ev.warn])
            ++ (List.range (esN wSysZ wRdZ [])).map
              (fun j => Ev.eigSweep j (esVals [] (esRvals wSysZ wRdZ []) j)
                ((esHam wEnvZ wSysZ none [] [] none).eval
                  (esVals [] (esRvals wSysZ wRdZ []) j)))
        ∧ (energy_spectrum wEnvZ wSysZ wStatesZ (RangesArg.dict wRdZ) none none none []
            [] none none none false).trace.count Ev.assign = 1) :=
  ⟨by decide, claim_C4_adiabatic_indexing wEnvZ wSysZ wStatesZ wRdZ none none none [] []
    none none none false 0 0 (by decide)⟩

/-- C5 witness: the theorem instantiated on the concrete two-dimensional
integer system, in complete mode, at sweep point 0. -/
theorem claim_C5_witness :
    ((0 < esN wSysZ wRdZ []
      ∧ (esIndices wEnvZ wSysZ wStatesZ none none none none none [] [] none).Nodup
      ∧ ∀ j ∈ esIndices wEnvZ wSysZ wStatesZ none none none none none [] [] none,
          j < wSysZ.dim)
      ∧ (wEnvZ.eigvals ((esHam wEnvZ wSysZ none [] [] none).eval
          (esVals [] (esRvals wSysZ wRdZ []) 0))).length = wSysZ.dim)
      ∧ ((energy_spectrum wEnvZ wSysZ wStatesZ (RangesArg.dict wRdZ) none none none [] []
            none none none true).result
          = ESOut.ok (esCols wEnvZ wSysZ wStatesZ wRdZ none none none [] [] none none
              none true)
        ∧ (esCols wEnvZ wSysZ wStatesZ wRdZ none none none [] [] none none none
            true).length = esN wSysZ wRdZ []
        ∧ ((esCols wEnvZ wSysZ wStatesZ wRdZ none none none [] [] none none none
            true).getD 0 []).length = wSysZ.dim
        ∧ ((esCols wEnvZ wSysZ wStatesZ wRdZ none none none [] [] none none none
            true).getD 0 []).drop
              (esIndices wEnvZ wSysZ wStatesZ none none none none none [] [] none).length
          = (untrackedSlots wSysZ.dim (esIndices wEnvZ wSysZ wStatesZ none none none none
              none [] [] none)).map
              (fun j => (sortR (wEnvZ.eigvals ((esHam wEnvZ wSysZ none [] [] none).eval
                (esVals [] (esRvals wSysZ wRdZ []) 0)))).getD j 0)
        ∧ ((esCols wEnvZ wSysZ wStatesZ wRdZ none none none [] [] none none none
            true).getD 0 []).Perm
            (wEnvZ.eigvals ((esHam wEnvZ wSysZ none [] [] none).eval
              (esVals [] (esRvals wSysZ wRdZ []) 0)))) :=
  ⟨⟨⟨by decide, by decide, by decide⟩, by decide⟩, claim_C5_complete_mode wEnvZ wSysZ
    wStatesZ wRdZ none none none [] [] none none none 0 (by decide) (by decide)⟩

/-- Two identical tracked states: both are assigned slot 0. -/
def cStatesZ : List (List (Cx ℤ)) := [[⟨1, 0⟩, ⟨0, 0⟩], [⟨1, 0⟩, ⟨0, 0⟩]]

/-- C7 counterexample: on the concrete two-dimensional system with two
identical supplied states (slot assignment [0, 0], not injective) and
complete=True, the warning is emitted, but the run does not complete: the
complete-mode fill of lines 100-104 overruns the two-row results array in the
first sweep iteration and the run aborts with numpy's IndexError, so no output
is produced, refuting that the computation does not abort. -/
theorem claim_C7_counterexample :
    ¬ (esIndices wEnvZ wSysZ cStatesZ none none none none none [] [] none).Nodup
      ∧ Ev.warn ∈ (energy_spectrum wEnvZ wSysZ cStatesZ (RangesArg.dict wRdZ) none none
          none [] [] none none none true).trace
      ∧ (energy_spectrum wEnvZ wSysZ cStatesZ (RangesArg.dict wRdZ) none none none [] []
          none none none true).result = ESOut.err ESErr.indexOutOfRange := by
  refine ⟨?_, ?_, ?_⟩ <;> decide
